import Mathlib

/-!
# angleinput.js: a verification development

A shallow embedding of `src/angleinput.js` (the angle dial widget) and
theorems about its option resolution, angle normalisation, hit testing,
painting and drag handlers.

Numbers are modelled over an arbitrary linearly ordered field with a floor
function and take the `Math` object as a parameter, so they run over `ℚ`; the
theorems about angles instantiate the field with `ℝ` and the `Math` object
with the real `π`, `atan2`, `cos`, `sin`.
-/

set_option autoImplicit false

namespace AngleInput

/-! ## JavaScript values -/

/-- A JavaScript value. Objects are plain records of own properties: the
enumeration order of the keys (`for … in`) and the value stored under each
key. `nan` is the number `NaN`; infinities are not represented. -/
inductive JSVal (α : Type) where
  | undefined : JSVal α
  | null : JSVal α
  | bool (b : Bool) : JSVal α
  | num (x : α) : JSVal α
  | nan : JSVal α
  | str (s : String) : JSVal α
  | obj (keys : List String) (val : String → JSVal α) : JSVal α

namespace JSVal

variable {α : Type}

/-- The empty object literal `{}`. -/
def empty : JSVal α := obj [] (fun _ => undefined)

/-- The `typeof` operator. -/
def typeof : JSVal α → String
  | undefined => "undefined"
  | null => "object"
  | bool _ => "boolean"
  | num _ => "number"
  | nan => "number"
  | str _ => "string"
  | obj _ _ => "object"

/-- ToBoolean: `undefined`, `null`, `false`, `0`, `NaN` and `""` are falsy. -/
def truthy [Zero α] [DecidableEq α] : JSVal α → Bool
  | undefined => false
  | null => false
  | bool b => b
  | num x => decide (x ≠ 0)
  | nan => false
  | str s => decide (s ≠ "")
  | obj _ _ => true

/-- Property read `o[k]`. Own properties only: members inherited from a
prototype, and the indices and length of a string, are not represented, so a
read on a primitive gives `undefined`. -/
def get : JSVal α → String → JSVal α
  | obj ks f, k => if k ∈ ks then f k else undefined
  | _, _ => undefined

/-- Property write `o[k] = v`, returning the updated object. A new key is
enumerated last; a write on a primitive is silently dropped (sloppy mode). -/
def set : JSVal α → String → JSVal α → JSVal α
  | obj ks f, k, v => obj (if k ∈ ks then ks else ks ++ [k]) (fun j => if j = k then v else f j)
  | d, _, _ => d

/-- The object literal `{k₁: v₁, …}`, built by writing the properties in
order. -/
def ofList (l : List (String × JSVal α)) : JSVal α :=
  l.foldl (fun o kv => o.set kv.1 kv.2) empty

/-- Whether a value is an object (`null` is not). -/
def isObj : JSVal α → Bool
  | obj _ _ => true
  | _ => false

/-- The keys that `for … in` enumerates. -/
def keys : JSVal α → List String
  | obj ks _ => ks
  | _ => []

/-- ToNumber, with `none` for `NaN`. The conversion of a string is the
parameter `strToNumber`. -/
def toNumber [Zero α] [One α] (strToNumber : String → Option α) : JSVal α → Option α
  | undefined => none
  | null => some 0
  | bool b => some (if b then 1 else 0)
  | num x => some x
  | nan => none
  | str s => strToNumber s
  | obj _ _ => none

/-- The JavaScript number holding a numeric result (`none` is `NaN`). -/
def ofNumber : Option α → JSVal α
  | some x => num x
  | none => nan

end JSVal

open JSVal

variable {α : Type}

/-! ## `apply`: filling in defaults (lines 84-98) -/

/-- One pass of the outer loop of `apply`: `for (var key in src) …` run on
`dest`. A source that is not an object enumerates nothing (the indices of a
string source are not represented). Objects are values here, every use of an
object its own copy; `applyInPlace` is the same loop on objects with
identity. -/
def applySrc [Zero α] [DecidableEq α] : (src : JSVal α) → (dest : JSVal α) → JSVal α
  | obj ks f, dest =>
    ks.foldl (fun d key =>
      if (f key).typeof = "object" then
        d.set key (applySrc (f key) (if (d.get key).truthy then d.get key else JSVal.empty))
      else if (d.get key).typeof = "undefined" then
        d.set key (f key)
      else d) dest
  | _, dest => dest

/-- The function `apply(dest, src₁, …, srcₙ)`: the sources are visited from the
last to the first (`for (i = arguments.length-1; i > 0; i--)`). -/
def apply [Zero α] [DecidableEq α] (dest : JSVal α) (srcs : List (JSVal α)) : JSVal α :=
  srcs.foldr (fun src d => applySrc src d) dest

/-! ## Numbers and the `Math` object -/

/-- The members of the global `Math` object that the widget uses. -/
structure MathObj (α : Type) where
  PI : α
  atan2 : α → α → α
  cos : α → α
  sin : α → α

/-- The call `parseInt(x)` on a number `x`: truncation toward zero. (JavaScript
converts `x` to a string first; for `1e-6 ≤ |x| < 1e21` and for `x = 0` the
digits before the decimal point are the truncation.) -/
def parseInt [LinearOrderedField α] [FloorRing α] (x : α) : α :=
  if 0 ≤ x then ((⌊x⌋ : ℤ) : α) else ((⌈x⌉ : ℤ) : α)

/-- The constant `golden` (line 34). -/
def golden [DivisionRing α] : α := 1.61803398875

/-! ## Option resolution (lines 36-67 and 99-109) -/

/-- The object `defopts` (lines 40-67). -/
def defopts [DivisionRing α] : JSVal α :=
  ofList [
    ("size", num 64),
    ("rad", num 24),
    ("bgrad", num (24 / golden)),
    ("axisrad", num 32),
    ("angle0", num 0),
    ("clockwise", bool true),
    ("deg", bool true),
    ("style", ofList [
      ("stroke", str "rgba(0,0,255,0.5)"),
      ("fill", str "rgba(0,0,255,0.4)"),
      ("linewidth", num 1),
      ("bgstroke", str "#aaaaaa"),
      ("bgfill", str "#dddddd"),
      ("bglinewidth", num 1),
      ("axislinewidth", num 1),
      ("axisstroke", str "black")]),
    ("draggingstyle", ofList [
      ("stroke", str "blue"),
      ("fill", str "rgba(0,0,255,0.7)"),
      ("axislinewidth", num 2)]),
    ("hoveredstyle", ofList [
      ("stroke", str "blue"),
      ("fill", str "rgba(0,0,255,0.5)")])]

/-- Lines 99-103 of `angleinput`: when `opts.size` is truthy, each radius
whose `typeof` is `"undefined"` is derived from the size. -/
def deriveRadii [LinearOrderedField α] (strToNumber : String → Option α)
    (opts : JSVal α) : JSVal α :=
  if (opts.get "size").truthy then
    let opts :=
      if (opts.get "rad").typeof = "undefined" then
        opts.set "rad" (ofNumber (((opts.get "size").toNumber strToNumber).map
          (fun size => 0.5 * size / golden)))
      else opts
    let opts :=
      if (opts.get "bgrad").typeof = "undefined" then
        opts.set "bgrad" (ofNumber (((opts.get "rad").toNumber strToNumber).map
          (fun rad => rad / golden)))
      else opts
    if (opts.get "axisrad").typeof = "undefined" then
      opts.set "axisrad" (ofNumber (((opts.get "size").toNumber strToNumber).map
        (fun size => 0.5 * size)))
    else opts
  else opts

/-- The option handling of the constructor `angleinput`: line 36
(`if (!opts) opts = {}`), lines 99-103 (`deriveRadii`), line 106
(`apply(opts, defopts)`) and line 109 (the midpoint `opts.x = opts.y`). -/
def resolveOpts [LinearOrderedField α] (strToNumber : String → Option α)
    (opts : JSVal α) : JSVal α :=
  let opts := if opts.truthy then opts else JSVal.empty
  let opts := deriveRadii strToNumber opts
  let opts := apply opts [defopts]
  let mid := ofNumber (((opts.get "size").toNumber strToNumber).map (fun size => size / 2 + 0.5))
  (opts.set "y" mid).set "x" mid

/-- The resolved options as the widget reads them, with the documented types:
numbers for the geometry, booleans for the flags, style objects as values. -/
structure Opts (α : Type) where
  size : α
  rad : α
  bgrad : α
  axisrad : α
  angle0 : α
  clockwise : Bool
  deg : Bool
  x : α
  y : α
  style : JSVal α
  draggingstyle : JSVal α
  hoveredstyle : JSVal α

/-- The number held by a value of type number, if it is one. -/
def JSVal.asNum : JSVal α → Option α
  | .num x => some x
  | _ => none

/-- The boolean held by a value of type boolean, if it is one. -/
def JSVal.asBool : JSVal α → Option Bool
  | .bool b => some b
  | _ => none

/-- Reads a resolved options object into `Opts`; `none` when a property does
not have its documented type. -/
def Opts.ofJS (o : JSVal α) : Option (Opts α) := do
  let size ← (o.get "size").asNum
  let rad ← (o.get "rad").asNum
  let bgrad ← (o.get "bgrad").asNum
  let axisrad ← (o.get "axisrad").asNum
  let angle0 ← (o.get "angle0").asNum
  let clockwise ← (o.get "clockwise").asBool
  let deg ← (o.get "deg").asBool
  let x ← (o.get "x").asNum
  let y ← (o.get "y").asNum
  pure { size := size, rad := rad, bgrad := bgrad, axisrad := axisrad, angle0 := angle0,
         clockwise := clockwise, deg := deg, x := x, y := y,
         style := o.get "style", draggingstyle := o.get "draggingstyle",
         hoveredstyle := o.get "hoveredstyle" }

/-! ## The widget state -/

/-- The bound node `inputel`. `tagName` is `none` for a node that is not an
element (a text node has no `tagName`). `value` is the last value the widget
assigned to `inputel.value` and `changeEvents` counts the `change` events it
dispatched on the node. -/
structure Element (α : Type) where
  tagName : Option String
  value : JSVal α
  changeEvents : Nat

/-- A call on the 2-D drawing context, or an assignment to one of its
properties. -/
inductive CanvasCmd (α : Type) where
  | clearRect (x y w h : α)
  | save
  | beginPath
  | arc (x y r startAngle endAngle : α) (anticlockwise : Bool)
  | fillStyle (v : JSVal α)
  | lineWidth (v : JSVal α)
  | strokeStyle (v : JSVal α)
  | fill
  | stroke
  | moveTo (x y : α)
  | lineTo (x y : α)
  | closePath
  | restore

/-- The closure state of one widget: the resolved options, the variables
`angle`, `dragging`, `hovered` and `inputel`, and the drawing calls of the
last `paint` (the content of the canvas). -/
structure Widget (α : Type) where
  opts : Opts α
  angle : α
  dragging : Bool
  hovered : Bool
  inputel : Option (Element α)
  canvas : List (CanvasCmd α)

/-- How a call ended: normally, or by a thrown `TypeError`; either way with
the state the closure variables then have. -/
inductive Completion (σ : Type) where
  | normal (s : σ)
  | thrown (s : σ)

/-- The state a call leaves behind. -/
def Completion.state {σ : Type} : Completion σ → σ
  | .normal s => s
  | .thrown s => s

/-! ## `paint` (lines 124-171) -/

/-- The local `s` of `paint` (line 126): the style of the frame. -/
def paint_s [Zero α] [DecidableEq α] (w : Widget α) : JSVal α :=
  let over := if w.dragging then w.opts.draggingstyle
              else (if w.hovered then w.opts.hoveredstyle else JSVal.empty)
  apply JSVal.empty [w.opts.style, if over.truthy then over else JSVal.empty]

/-- The local `d` of `paint` (lines 127-133): the end angle of the sweep. -/
def paint_d [LinearOrderedField α] [FloorRing α] (Math : MathObj α) (w : Widget α) : α :=
  let d := w.opts.angle0 - w.angle
  let d := if w.opts.clockwise then 2 * Math.PI - d else d
  d - Math.PI * 2 * parseInt (0.5 * d / Math.PI)

/-- The function `paint`: the drawing calls of lines 136-170 replace the
content of the canvas (`canvas.width` and `canvas.height` are `opts.size`). -/
def paint [LinearOrderedField α] [FloorRing α] (Math : MathObj α) (w : Widget α) : Widget α :=
  let s := paint_s w
  let d := paint_d Math w
  let opts := w.opts
  { w with canvas := [
      .clearRect 0 0 opts.size opts.size,
      .save,
      .beginPath,
      .arc opts.x opts.y opts.bgrad 0 (Math.PI * 2) false,
      .fillStyle (s.get "bgfill"),
      .lineWidth (s.get "bglinewidth"),
      .strokeStyle (s.get "bgstroke"),
      .fill,
      .stroke,
      .beginPath,
      .moveTo opts.x opts.y,
      .arc opts.x opts.y opts.rad opts.angle0 d (!opts.clockwise),
      .closePath,
      .fillStyle (s.get "fill"),
      .lineWidth (s.get "linewidth"),
      .strokeStyle (s.get "stroke"),
      .fill,
      .stroke,
      .beginPath,
      .moveTo (opts.x + opts.axisrad * Math.cos opts.angle0)
        (opts.y + opts.axisrad * Math.sin opts.angle0),
      .lineTo opts.x opts.y,
      .lineTo (opts.x + opts.axisrad * Math.cos d) (opts.y + opts.axisrad * Math.sin d),
      .strokeStyle (s.get "axisstroke"),
      .lineWidth (s.get "axislinewidth"),
      .stroke,
      .restore] }

/-! ## `setValue` (lines 173-188) -/

/-- The method `toUpperCase`, on ASCII letters. -/
def toUpperCase (s : String) : String := String.mk (s.data.map Char.toUpper)

/-- The function `setValue`. The angle is stored first (lines 174-175); the
bound node is then written when it is an `INPUT` element, and reading
`tagName.toUpperCase()` on a node without a `tagName` throws before `paint`.
Both branches of the `createEvent` test dispatch one `change` event. -/
def setValue [LinearOrderedField α] [FloorRing α] (Math : MathObj α) (w : Widget α) (ang : α) :
    Completion (Widget α) :=
  let ang := if ang < 0 then Math.PI * 2 + ang else ang
  let w := { w with angle := ang - Math.PI * 2 * parseInt (0.5 * ang / Math.PI) }
  match w.inputel with
  | none => .normal (paint Math w)
  | some el =>
    match el.tagName with
    | none => .thrown w
    | some tag =>
      if toUpperCase tag = "INPUT" then
        .normal (paint Math { w with inputel := some { el with
          value := .num (180 * w.angle / Math.PI),
          changeEvents := el.changeEvents + 1 } })
      else .normal (paint Math w)

/-! ## Pointer positions (lines 194-226) -/

/-- What `position` reads of an event and of the page when it is dispatched:
`touches` is the client position of `event.touches[0]` when `event.touches`
is truthy, `x` and `y` are `event.x` and `event.y` when defined. -/
structure Event (α : Type) where
  touches : Option (α × α)
  x : Option α
  y : Option α
  clientX : α
  clientY : α
  bodyScrollLeft : α
  bodyScrollTop : α
  documentElementScrollLeft : α
  documentElementScrollTop : α
  canvasOffsetLeft : α
  canvasOffsetTop : α

/-- The function `position`: the offset of the pointer from the midpoint. -/
def position [Ring α] (opts : Opts α) (event : Event α) : α × α :=
  let xy : α × α :=
    match event.touches with
    | some t => t
    | none =>
      match event.x, event.y with
      | some x, some y => (x, y)
      | _, _ => (event.clientX + event.bodyScrollLeft + event.documentElementScrollLeft,
                 event.clientY + event.bodyScrollTop + event.documentElementScrollTop)
  let x := xy.1 - event.canvasOffsetLeft
  let y := xy.2 - event.canvasOffsetTop
  (x - opts.x, y - opts.y)

set_option linter.unusedVariables false in
/-- The function `angleFromPos`. The second `if` has the `else`; the first
has none, so its assignment to `ret` is always overwritten. -/
def angleFromPos [LinearOrderedField α] [FloorRing α] (Math : MathObj α) (opts : Opts α)
    (pos : α × α) : α :=
  let ret : α := 0
  let ret := if parseInt (pos.1 + 0.5) = 0 then
      opts.angle0 + (if pos.2 < 0 then Math.PI / 2 else 3 * Math.PI / 2)
    else ret
  let ret := if parseInt (pos.2 + 0.5) = 0 then
      opts.angle0 + (if pos.1 < 0 then Math.PI else 0)
    else opts.angle0 - Math.atan2 pos.2 pos.1
  let ret := if opts.clockwise then 2 * Math.PI - ret else ret
  ret

/-! ## Event handlers (lines 228-266) -/

section handlers

variable [LinearOrderedField α] [FloorRing α]

/-- The `mousedown` listener. -/
def mousedown (Math : MathObj α) (w : Widget α) (e : Event α) : Widget α :=
  let w := { w with dragging := true }
  (setValue Math w (angleFromPos Math w.opts (position w.opts e))).state

/-- The `mousemove` listener. -/
def mousemove (Math : MathObj α) (w : Widget α) (e : Event α) : Widget α :=
  if !w.dragging then w
  else (setValue Math w (angleFromPos Math w.opts (position w.opts e))).state

/-- The `mouseup` listener. -/
def mouseup (Math : MathObj α) (w : Widget α) : Widget α :=
  paint Math { w with dragging := false }

/-- The `mouseover` listener. -/
def mouseover (Math : MathObj α) (w : Widget α) : Widget α :=
  paint Math { w with hovered := true }

/-- The `mouseout` listener. -/
def mouseout (Math : MathObj α) (w : Widget α) : Widget α :=
  paint Math { w with dragging := false, hovered := false }

/-- The `touchstart` listener (`preventDefault` does not touch the widget). -/
def touchstart (Math : MathObj α) (w : Widget α) (e : Event α) : Widget α :=
  let w := { w with dragging := true }
  (setValue Math w (angleFromPos Math w.opts (position w.opts e))).state

/-- The `touchmove` listener. -/
def touchmove (Math : MathObj α) (w : Widget α) (e : Event α) : Widget α :=
  if !w.dragging then w
  else (setValue Math w (angleFromPos Math w.opts (position w.opts e))).state

/-- The `touchend` listener. -/
def touchend (Math : MathObj α) (w : Widget α) : Widget α :=
  paint Math { w with dragging := false }

end handlers

/-! ## The real `Math` object -/

/-- The `Math` object over the reals: `atan2 y x` is the argument of `x + y·i`,
in `(-π, π]`. -/
noncomputable def realMath : MathObj ℝ where
  PI := Real.pi
  atan2 := fun y x => Complex.arg ⟨x, y⟩
  cos := Real.cos
  sin := Real.sin

/-! ## `apply` on objects with identity

`apply` writes into `dest` and into the objects `dest` refers to (lines 90 and
93). Where the destination is a new `{}` (`paint`) or only keys that hold
primitives are read (the radii), taking objects as values, as `applySrc` does,
is exact. For the options object of the caller, whose style objects may be one
and the same object, the destination is modelled here in a store of objects
with identity. The source stays a literal: `defopts` is built anew by every
call of the constructor, so no object of the caller is part of it. -/

/-- A value as a caller holds it: a primitive, or a reference to an object of
the store. Two references are the same object exactly when they are equal. -/
inductive SVal (α : Type) where
  | undefined : SVal α
  | null : SVal α
  | bool (b : Bool) : SVal α
  | num (x : α) : SVal α
  | nan : SVal α
  | str (s : String) : SVal α
  | ref (r : Nat) : SVal α

/-- The `typeof` operator on stored values. -/
def SVal.typeof : SVal α → String
  | .undefined => "undefined"
  | .null => "object"
  | .bool _ => "boolean"
  | .num _ => "number"
  | .nan => "number"
  | .str _ => "string"
  | .ref _ => "object"

/-- ToBoolean on stored values; every object is truthy. -/
def SVal.truthy [Zero α] [DecidableEq α] : SVal α → Bool
  | .undefined => false
  | .null => false
  | .bool b => b
  | .num x => decide (x ≠ 0)
  | .nan => false
  | .str s => decide (s ≠ "")
  | .ref _ => true

/-- A primitive of a source literal as a stored value. It is applied only to
values whose `typeof` is not `"object"`. -/
def JSVal.prim : JSVal α → SVal α
  | .undefined => .undefined
  | .null => .null
  | .bool b => .bool b
  | .num x => .num x
  | .nan => .nan
  | .str s => .str s
  | .obj _ _ => .undefined

/-- An object of the store: its enumerable keys and the value under each. -/
structure SObj (α : Type) where
  keys : List String
  val : String → SVal α

/-- The objects of the page by address; the addresses from `next` on are
free. -/
structure Store (α : Type) where
  next : Nat
  obj : Nat → SObj α

/-- Property read `d[k]` in the store. -/
def Store.get (σ : Store α) : SVal α → String → SVal α
  | .ref r, k => if k ∈ (σ.obj r).keys then (σ.obj r).val k else .undefined
  | _, _ => .undefined

/-- Property write `d[k] = v`: the object that `d` refers to is changed in
place; a write on a primitive is dropped. -/
def Store.set (σ : Store α) : SVal α → String → SVal α → Store α
  | .ref r, k, v =>
    { σ with obj := fun a =>
        if a = r then
          { keys := if k ∈ (σ.obj r).keys then (σ.obj r).keys else (σ.obj r).keys ++ [k],
            val := fun j => if j = k then v else (σ.obj r).val j }
        else σ.obj a }
  | _, _, _ => σ

/-- The literal `{}`: a new empty object at the first free address. -/
def Store.alloc (σ : Store α) : Store α × SVal α :=
  ({ next := σ.next + 1,
     obj := fun a => if a = σ.next then { keys := [], val := fun _ => .undefined } else σ.obj a },
   .ref σ.next)

/-- The function `apply(dest, src)` with `dest` in the store (lines 84-98): the
loop `for (var key in src)` over a source literal `src`, writing into the
object that `dest` refers to. Line 90 passes `dest[key]`, or a new `{}` when
that is falsy, to the recursive call and stores the same reference back. -/
def applyInPlace [Zero α] [DecidableEq α] : (src : JSVal α) → (dest : SVal α) → Store α → Store α
  | .obj ks f, dest, σ =>
    ks.foldl (fun σ key =>
      if (f key).typeof = "object" then
        let p := if (σ.get dest key).truthy then (σ, σ.get dest key) else σ.alloc
        (applyInPlace (f key) p.2 p.1).set dest key p.2
      else if (σ.get dest key).typeof = "undefined" then
        σ.set dest key (f key).prim
      else σ) σ
  | _, _, σ => σ

/-- The body of the loop of `applyInPlace` for one key. -/
def applyKeyInPlace [Zero α] [DecidableEq α] (f : String → JSVal α) (dest : SVal α)
    (σ : Store α) (key : String) : Store α :=
  if (f key).typeof = "object" then
    let p := if (σ.get dest key).truthy then (σ, σ.get dest key) else σ.alloc
    (applyInPlace (f key) p.2 p.1).set dest key p.2
  else if (σ.get dest key).typeof = "undefined" then
    σ.set dest key (f key).prim
  else σ

/-! ## Reference definitions for the statements -/

/-- The options resolved from an empty options object: `defopts` with the
midpoint of a canvas of size 64. -/
def defaultOpts [DivisionRing α] : Opts α where
  size := 64
  rad := 24
  bgrad := 24 / golden
  axisrad := 32
  angle0 := 0
  clockwise := true
  deg := true
  x := 64 / 2 + 0.5
  y := 64 / 2 + 0.5
  style := defopts.get "style"
  draggingstyle := defopts.get "draggingstyle"
  hoveredstyle := defopts.get "hoveredstyle"

/-- A widget on the default options, bound to an `input` element. -/
def defaultWidget [DivisionRing α] : Widget α where
  opts := defaultOpts
  angle := 0
  dragging := false
  hovered := false
  inputel := some { tagName := some "INPUT", value := .str "", changeEvents := 0 }
  canvas := []

/-- A mouse event whose `x` and `y` put the pointer at the offset `pos` from
the midpoint, on a canvas at the origin of the page. -/
def eventAt [Ring α] (opts : Opts α) (pos : α × α) : Event α where
  touches := none
  x := some (pos.1 + opts.x)
  y := some (pos.2 + opts.y)
  clientX := pos.1 + opts.x
  clientY := pos.2 + opts.y
  bodyScrollLeft := 0
  bodyScrollTop := 0
  documentElementScrollLeft := 0
  documentElementScrollTop := 0
  canvasOffsetLeft := 0
  canvasOffsetTop := 0

/-- The two-case description of `angleFromPos` that ignores the horizontal
rounding test: `r = angle0 + (π if dx < 0 else 0)` when `trunc(dy + 0.5) = 0`,
otherwise `r = angle0 − atan2(dy, dx)`; the result is `2π − r` if clockwise,
else `r`. -/
def angleFromPos_twoCase [LinearOrderedField α] [FloorRing α] (Math : MathObj α)
    (opts : Opts α) (pos : α × α) : α :=
  let r := if parseInt (pos.2 + 0.5) = 0 then opts.angle0 + (if pos.1 < 0 then Math.PI else 0)
           else opts.angle0 - Math.atan2 pos.2 pos.1
  if opts.clockwise then 2 * Math.PI - r else r

/-- The angle that `setValue` stores (lines 174-175), as a function of its
argument alone. -/
def storedAngle [LinearOrderedField α] [FloorRing α] (Math : MathObj α) (ang : α) : α :=
  let ang := if ang < 0 then Math.PI * 2 + ang else ang
  ang - Math.PI * 2 * parseInt (0.5 * ang / Math.PI)

/-- The options object `{size: 100, style: {stroke: "red"}}`. -/
def sampleOpts [DivisionRing α] : JSVal α :=
  obj ["size", "style"]
    (fun k => if k = "size" then num 100 else obj ["stroke"] (fun _ => str "red"))

/-- A store where one object `{stroke: "red"}` (address 1) is both the `style`
and the `draggingstyle` of the options object (address 0). -/
def sharedStyleStore [DivisionRing α] : Store α where
  next := 2
  obj := fun a =>
    if a = 0 then
      { keys := ["style", "draggingstyle"], val := fun _ => .ref 1 }
    else
      { keys := ["stroke"], val := fun _ => .str "red" }

/-- A store with the options object `{size: 100, style: {stroke: "red"}}` at
address 0 and its style object at address 1. -/
def sampleStore [DivisionRing α] : Store α where
  next := 2
  obj := fun a =>
    if a = 0 then
      { keys := ["size", "style"], val := fun k => if k = "size" then .num 100 else .ref 1 }
    else
      { keys := ["stroke"], val := fun _ => .str "red" }

/-! ## Properties of objects -/

theorem get_obj (ks : List String) (f : String → JSVal α) (k : String) :
    (JSVal.obj ks f).get k = if k ∈ ks then f k else .undefined := rfl

theorem get_set (d : JSVal α) (k j : String) (v : JSVal α) (hd : d.isObj = true) :
    (d.set k v).get j = if j = k then v else d.get j := by
  cases d with
  | obj ks f =>
    simp only [JSVal.set, JSVal.get]
    by_cases hjk : j = k
    · subst hjk
      by_cases hm : j ∈ ks <;> simp [hm]
    · by_cases hm : k ∈ ks <;> simp [hm, hjk]
  | _ => simp [JSVal.isObj] at hd

theorem isObj_set (d : JSVal α) (k : String) (v : JSVal α) :
    (d.set k v).isObj = d.isObj := by
  cases d <;> rfl

theorem keys_set (d : JSVal α) (k : String) (v : JSVal α) (hd : d.isObj = true) :
    (d.set k v).keys = if k ∈ d.keys then d.keys else d.keys ++ [k] := by
  cases d with
  | obj ks f => rfl
  | _ => simp [JSVal.isObj] at hd

theorem get_empty (j : String) : (JSVal.empty : JSVal α).get j = .undefined := rfl

theorem isObj_empty : (JSVal.empty : JSVal α).isObj = true := rfl

theorem keys_empty : (JSVal.empty : JSVal α).keys = [] := rfl

theorem get_of_not_isObj (d : JSVal α) (j : String) (hd : d.isObj = false) :
    d.get j = .undefined := by
  cases d <;> first | rfl | simp [JSVal.isObj] at hd

theorem typeof_eq_undefined {v : JSVal α} : v.typeof = "undefined" ↔ v = .undefined := by
  cases v <;> simp [JSVal.typeof]

theorem typeof_of_isObj {v : JSVal α} (h : v.isObj = true) : v.typeof = "object" := by
  cases v <;> simp_all [JSVal.isObj, JSVal.typeof]

theorem typeof_ofNumber (x : Option α) : (ofNumber x).typeof = "number" := by
  cases x <;> rfl

theorem isObj_ofList (l : List (String × JSVal α)) : (ofList l).isObj = true := by
  unfold ofList
  suffices h : ∀ (d : JSVal α), d.isObj = true →
      (l.foldl (fun o kv => o.set kv.1 kv.2) d).isObj = true from h _ isObj_empty
  induction l with
  | nil => intro d hd; exact hd
  | cons kv l ih => intro d hd; exact ih _ (by rw [isObj_set]; exact hd)

/-! ## Properties of `apply` -/

section applyLemmas

variable [Zero α] [DecidableEq α]

theorem applySrc_obj (ks : List String) (f : String → JSVal α) (dest : JSVal α) :
    applySrc (.obj ks f) dest =  ks.foldl (fun d key =>
      if (f key).typeof = "object" then
        d.set key (applySrc (f key) (if (d.get key).truthy then d.get key else JSVal.empty))
      else if (d.get key).typeof = "undefined" then
        d.set key (f key)
      else d) dest := by
  rw [applySrc]

theorem applySrc_isObj (src dest : JSVal α) :
    (applySrc src dest).isObj = dest.isObj := by
  cases src with
  | obj ks f =>
    rw [applySrc_obj]
    induction ks generalizing dest with
    | nil => rfl
    | cons k l ih =>
      rw [List.foldl_cons, ih]
      split
      · rw [isObj_set]
      · split
        · rw [isObj_set]
        · rfl
  | _ => rfl

/-- The value under `j` after `for (key in src)` has run over the keys `l`
of a source whose values there are not objects. -/
theorem foldl_scalar_get (f : String → JSVal α) (l : List String)
    (hf : ∀ k ∈ l, (f k).typeof ≠ "object") (d : JSVal α) (hd : d.isObj = true) (j : String) :
    (l.foldl (fun d key =>
      if (f key).typeof = "object" then
        d.set key (applySrc (f key) (if (d.get key).truthy then d.get key else JSVal.empty))
      else if (d.get key).typeof = "undefined" then
        d.set key (f key)
      else d) d).get j
    = if (d.get j).typeof = "undefined" ∧ j ∈ l then f j else d.get j := by
  induction l generalizing d with
  | nil => simp
  | cons k l ih =>
    have hk : (f k).typeof ≠ "object" := hf k (List.mem_cons_self _ _)
    have hl : ∀ k ∈ l, (f k).typeof ≠ "object" := fun x hx => hf x (List.mem_cons_of_mem _ hx)
    rw [List.foldl_cons]
    simp only [hk, if_false]
    by_cases hu : (d.get k).typeof = "undefined"
    · simp only [hu, if_true]
      rw [ih hl _ (by rw [isObj_set]; exact hd), get_set _ _ _ _ hd]
      by_cases hjk : j = k
      · subst hjk
        simp only [if_true, hu, List.mem_cons, true_or, and_self]
        split <;> rfl
      · simp only [hjk, if_false, List.mem_cons, false_or]
    · simp only [hu, if_false]
      rw [ih hl _ hd]
      by_cases hjk : j = k
      · subst hjk
        simp [hu]
      · simp only [List.mem_cons, hjk, false_or]

theorem applySrc_scalar_get (src dest : JSVal α) (hs : ∀ k ∈ src.keys, (src.get k).typeof ≠ "object")
    (hd : dest.isObj = true) (j : String) :
    (applySrc src dest).get j = if (dest.get j).typeof = "undefined" then src.get j else dest.get j := by
  by_cases hso : src.isObj = true
  · cases src with
    | obj ks f =>
      have hf : ∀ k ∈ ks, (f k).typeof ≠ "object" := by
        intro k hk
        have := hs k hk
        simpa [JSVal.get, hk] using this
      rw [applySrc_obj, foldl_scalar_get f ks hf dest hd, get_obj]
      by_cases hu : (dest.get j).typeof = "undefined"
      · by_cases hm : j ∈ ks
        · simp [hu, hm]
        · simp only [hu, hm, and_false, if_false, if_true]
          exact typeof_eq_undefined.mp hu
      · simp [hu]
    | _ => simp [JSVal.isObj] at hso
  · have hso' : src.isObj = false := by simpa using hso
    have h1 : applySrc src dest = dest := by
      cases src <;> first | rfl | simp [JSVal.isObj] at hso'
    rw [h1, get_of_not_isObj src j hso']
    by_cases hu : (dest.get j).typeof = "undefined"
    · rw [if_pos hu]; exact typeof_eq_undefined.mp hu
    · rw [if_neg hu]

/-- The value under `j` after `for (key in src)` has run over distinct keys. -/
theorem foldl_get (f : String → JSVal α) (l : List String) (hl : l.Nodup)
    (d : JSVal α) (hd : d.isObj = true) (j : String) :
    (l.foldl (fun d key =>
      if (f key).typeof = "object" then
        d.set key (applySrc (f key) (if (d.get key).truthy then d.get key else JSVal.empty))
      else if (d.get key).typeof = "undefined" then
        d.set key (f key)
      else d) d).get j
    = if j ∈ l then
        (if (f j).typeof = "object" then
          applySrc (f j) (if (d.get j).truthy then d.get j else JSVal.empty)
        else if (d.get j).typeof = "undefined" then f j else d.get j)
      else d.get j := by
  induction l generalizing d with
  | nil => simp
  | cons k l ih =>
    rw [List.nodup_cons] at hl
    rw [List.foldl_cons]
    have hd' : (if (f k).typeof = "object" then
        d.set k (applySrc (f k) (if (d.get k).truthy then d.get k else JSVal.empty))
      else if (d.get k).typeof = "undefined" then d.set k (f k) else d).isObj = true := by
      split
      · rw [isObj_set]; exact hd
      · split
        · rw [isObj_set]; exact hd
        · exact hd
    rw [ih hl.2 _ hd']
    have hget : ∀ i, i ≠ k → (if (f k).typeof = "object" then
        d.set k (applySrc (f k) (if (d.get k).truthy then d.get k else JSVal.empty))
      else if (d.get k).typeof = "undefined" then d.set k (f k) else d).get i = d.get i := by
      intro i hi
      split
      · rw [get_set _ _ _ _ hd, if_neg hi]
      · split
        · rw [get_set _ _ _ _ hd, if_neg hi]
        · rfl
    by_cases hjk : j = k
    · subst hjk
      simp only [hl.1, if_false, List.mem_cons, true_or, if_true]
      split
      · rw [get_set _ _ _ _ hd, if_pos rfl]
      · split
        · rw [get_set _ _ _ _ hd, if_pos rfl]
        · rfl
    · rw [hget j hjk]
      simp only [List.mem_cons, hjk, false_or]

theorem applySrc_get (src dest : JSVal α) (hn : src.keys.Nodup) (hd : dest.isObj = true)
    (j : String) (hj : j ∈ src.keys) :
    (applySrc src dest).get j =
      if (src.get j).typeof = "object" then
        applySrc (src.get j) (if (dest.get j).truthy then dest.get j else JSVal.empty)
      else if (dest.get j).typeof = "undefined" then src.get j else dest.get j := by
  cases src with
  | obj ks f =>
    have hj' : j ∈ ks := hj
    rw [applySrc_obj, foldl_get f ks hn dest hd, get_obj]
    simp [hj']
  | _ => simp [JSVal.keys] at hj

end applyLemmas

/-! ## Properties of the defaults -/

section
variable [DivisionRing α]

theorem defopts_keys : (defopts : JSVal α).keys =
    ["size", "rad", "bgrad", "axisrad", "angle0", "clockwise", "deg", "style",
      "draggingstyle", "hoveredstyle"] := by
  simp [defopts, ofList, keys_set, isObj_set, isObj_empty, keys_empty]

theorem defopts_keys_nodup : (defopts : JSVal α).keys.Nodup := by
  rw [defopts_keys]
  simp

theorem defopts_isObj : (defopts : JSVal α).isObj = true := isObj_ofList _

theorem defopts_get_size : (defopts : JSVal α).get "size" = .num 64 := by
  simp [defopts, ofList, get_set, isObj_set, isObj_empty, get_empty]
theorem defopts_get_rad : (defopts : JSVal α).get "rad" = .num 24 := by
  simp [defopts, ofList, get_set, isObj_set, isObj_empty, get_empty]
theorem defopts_get_bgrad : (defopts : JSVal α).get "bgrad" = .num (24 / golden) := by
  simp [defopts, ofList, get_set, isObj_set, isObj_empty, get_empty]
theorem defopts_get_axisrad : (defopts : JSVal α).get "axisrad" = .num 32 := by
  simp [defopts, ofList, get_set, isObj_set, isObj_empty, get_empty]
theorem defopts_get_angle0 : (defopts : JSVal α).get "angle0" = .num 0 := by
  simp [defopts, ofList, get_set, isObj_set, isObj_empty, get_empty]
theorem defopts_get_clockwise : (defopts : JSVal α).get "clockwise" = .bool true := by
  simp [defopts, ofList, get_set, isObj_set, isObj_empty, get_empty]
theorem defopts_get_deg : (defopts : JSVal α).get "deg" = .bool true := by
  simp [defopts, ofList, get_set, isObj_set, isObj_empty, get_empty]

theorem defopts_get_style : (defopts : JSVal α).get "style" = ofList [
      ("stroke", str "rgba(0,0,255,0.5)"),
      ("fill", str "rgba(0,0,255,0.4)"),
      ("linewidth", num 1),
      ("bgstroke", str "#aaaaaa"),
      ("bgfill", str "#dddddd"),
      ("bglinewidth", num 1),
      ("axislinewidth", num 1),
      ("axisstroke", str "black")] := by
  simp [defopts, get_set, isObj_set, isObj_empty, get_empty, ofList]

theorem defopts_get_draggingstyle : (defopts : JSVal α).get "draggingstyle" = ofList [
      ("stroke", str "blue"),
      ("fill", str "rgba(0,0,255,0.7)"),
      ("axislinewidth", num 2)] := by
  simp [defopts, get_set, isObj_set, isObj_empty, get_empty, ofList]

theorem defopts_get_hoveredstyle : (defopts : JSVal α).get "hoveredstyle" = ofList [
      ("stroke", str "blue"),
      ("fill", str "rgba(0,0,255,0.5)")] := by
  simp [defopts, get_set, isObj_set, isObj_empty, get_empty, ofList]

/-- The nested defaults hold no objects. -/
theorem defopts_nested_scalar (sk : String)
    (hsk : sk ∈ ["style", "draggingstyle", "hoveredstyle"]) :
    ∀ k ∈ ((defopts : JSVal α).get sk).keys, (((defopts : JSVal α).get sk).get k).typeof ≠ "object" := by
  simp only [List.mem_cons, List.mem_singleton, List.not_mem_nil, or_false] at hsk
  rcases hsk with h | h | h <;> subst h
  · rw [defopts_get_style]
    intro k hk
    simp [ofList, keys_set, isObj_set, isObj_empty, keys_empty] at hk
    rcases hk with h | h | h | h | h | h | h | h <;> subst h <;>
      simp [ofList, get_set, isObj_set, isObj_empty, get_empty, JSVal.typeof]
  · rw [defopts_get_draggingstyle]
    intro k hk
    simp [ofList, keys_set, isObj_set, isObj_empty, keys_empty] at hk
    rcases hk with h | h | h <;> subst h <;>
      simp [ofList, get_set, isObj_set, isObj_empty, get_empty, JSVal.typeof]
  · rw [defopts_get_hoveredstyle]
    intro k hk
    simp [ofList, keys_set, isObj_set, isObj_empty, keys_empty] at hk
    rcases hk with h | h <;> subst h <;>
      simp [ofList, get_set, isObj_set, isObj_empty, get_empty, JSVal.typeof]

end

section
variable [LinearOrderedField α]

/-- A default that is not an object is taken exactly when the option is
undefined. -/
theorem applySrc_defopts_scalar (d : JSVal α) (hd : d.isObj = true) (k : String)
    (hk : k ∈ ["size", "rad", "bgrad", "axisrad", "angle0", "clockwise", "deg"]) :
    (applySrc defopts d).get k =
      if (d.get k).typeof = "undefined" then defopts.get k else d.get k := by
  have hn : (defopts : JSVal α).keys.Nodup := defopts_keys_nodup
  have hmem : k ∈ (defopts : JSVal α).keys := by
    rw [defopts_keys]
    simp only [List.mem_cons, List.mem_singleton, List.not_mem_nil, or_false] at hk
    rcases hk with h | h | h | h | h | h | h <;> subst h <;> simp
  rw [applySrc_get _ _ hn hd k hmem]
  have ht : ((defopts : JSVal α).get k).typeof ≠ "object" := by
    simp only [List.mem_cons, List.mem_singleton, List.not_mem_nil, or_false] at hk
    rcases hk with h | h | h | h | h | h | h <;> subst h
    · rw [defopts_get_size]; simp [JSVal.typeof]
    · rw [defopts_get_rad]; simp [JSVal.typeof]
    · rw [defopts_get_bgrad]; simp [JSVal.typeof]
    · rw [defopts_get_axisrad]; simp [JSVal.typeof]
    · rw [defopts_get_angle0]; simp [JSVal.typeof]
    · rw [defopts_get_clockwise]; simp [JSVal.typeof]
    · rw [defopts_get_deg]; simp [JSVal.typeof]
  rw [if_neg ht]

end
/-! ## Properties of the option resolution -/

section
variable [LinearOrderedField α]

theorem deriveRadii_isObj (s : String → Option α) (o : JSVal α) :
    (deriveRadii s o).isObj = o.isObj := by
  unfold deriveRadii
  split
  · dsimp only
    split <;> split <;> split <;> simp [isObj_set]
  · rfl

theorem deriveRadii_of_falsy (s : String → Option α) (o : JSVal α)
    (h : (o.get "size").truthy = false) : deriveRadii s o = o := by
  unfold deriveRadii
  simp [h]

theorem deriveRadii_get_size (s : String → Option α) (o : JSVal α) (ho : o.isObj = true) :
    (deriveRadii s o).get "size" = o.get "size" := by
  unfold deriveRadii
  split
  · dsimp only
    split <;> split <;> split <;> simp [get_set, isObj_set, ho]
  · rfl

theorem deriveRadii_get_rad (s : String → Option α) (o : JSVal α) (ho : o.isObj = true)
    (h : (o.get "size").truthy = true) :
    (deriveRadii s o).get "rad" =
      if (o.get "rad").typeof = "undefined" then
        ofNumber (((o.get "size").toNumber s).map (fun size => 0.5 * size / golden))
      else o.get "rad" := by
  unfold deriveRadii
  rw [if_pos h]
  dsimp only
  split <;> split <;> split <;> simp [get_set, isObj_set, ho]

theorem deriveRadii_get_bgrad (s : String → Option α) (o : JSVal α) (ho : o.isObj = true)
    (h : (o.get "size").truthy = true) :
    (deriveRadii s o).get "bgrad" =
      if (o.get "bgrad").typeof = "undefined" then
        ofNumber ((((deriveRadii s o).get "rad").toNumber s).map (fun rad => rad / golden))
      else o.get "bgrad" := by
  rw [deriveRadii_get_rad s o ho h]
  unfold deriveRadii
  rw [if_pos h]
  dsimp only
  split <;> split <;> split <;> simp_all [get_set, isObj_set, ho]

theorem deriveRadii_get_axisrad (s : String → Option α) (o : JSVal α) (ho : o.isObj = true)
    (h : (o.get "size").truthy = true) :
    (deriveRadii s o).get "axisrad" =
      if (o.get "axisrad").typeof = "undefined" then
        ofNumber (((o.get "size").toNumber s).map (fun size => 0.5 * size))
      else o.get "axisrad" := by
  unfold deriveRadii
  rw [if_pos h]
  dsimp only
  split <;> split <;> split <;> simp_all [get_set, isObj_set, ho]

/-- Outside the midpoint keys, the resolved options are the defaults applied
to the options with derived radii. -/
theorem resolveOpts_get (s : String → Option α) (o : JSVal α) (ho : o.isObj = true)
    (k : String) (hx : k ≠ "x") (hy : k ≠ "y") :
    (resolveOpts s o).get k = (applySrc defopts (deriveRadii s o)).get k := by
  have ht : o.truthy = true := by
    cases o <;> simp_all [JSVal.isObj, JSVal.truthy]
  unfold resolveOpts AngleInput.apply
  simp only [ht, if_true, List.foldr_cons, List.foldr_nil]
  have h1 : (applySrc defopts (deriveRadii s o)).isObj = true := by
    rw [applySrc_isObj, deriveRadii_isObj]; exact ho
  rw [get_set _ _ _ _ (by rw [isObj_set]; exact h1), if_neg hx, get_set _ _ _ _ h1, if_neg hy]

end
/-! ## Properties of `setValue`, `paint` and the handlers -/

section
variable [LinearOrderedField α] [FloorRing α]

theorem parseInt_of_nonneg {x : α} (h : 0 ≤ x) : parseInt x = ((⌊x⌋ : ℤ) : α) := by
  simp [parseInt, h]

theorem parseInt_of_neg {x : α} (h : x < 0) : parseInt x = ((⌈x⌉ : ℤ) : α) := by
  simp [parseInt, not_le.mpr h]

theorem parseInt_eq_intCast (x : α) : ∃ k : ℤ, parseInt x = (k : α) := by
  unfold parseInt
  split
  · exact ⟨_, rfl⟩
  · exact ⟨_, rfl⟩

theorem paint_angle (Math : MathObj α) (w : Widget α) : (paint Math w).angle = w.angle := rfl
theorem paint_opts (Math : MathObj α) (w : Widget α) : (paint Math w).opts = w.opts := rfl
theorem paint_dragging (Math : MathObj α) (w : Widget α) : (paint Math w).dragging = w.dragging := rfl
theorem paint_hovered (Math : MathObj α) (w : Widget α) : (paint Math w).hovered = w.hovered := rfl

theorem setValue_angle (Math : MathObj α) (w : Widget α) (a : α) :
    (setValue Math w a).state.angle = storedAngle Math a := by
  unfold setValue storedAngle
  dsimp only
  split
  · rfl
  · split
    · rfl
    · split <;> rfl

theorem setValue_opts (Math : MathObj α) (w : Widget α) (a : α) :
    (setValue Math w a).state.opts = w.opts := by
  unfold setValue
  dsimp only
  split
  · rfl
  · split
    · rfl
    · split <;> rfl

theorem setValue_dragging (Math : MathObj α) (w : Widget α) (a : α) :
    (setValue Math w a).state.dragging = w.dragging := by
  unfold setValue
  dsimp only
  split
  · rfl
  · split
    · rfl
    · split <;> rfl

theorem setValue_hovered (Math : MathObj α) (w : Widget α) (a : α) :
    (setValue Math w a).state.hovered = w.hovered := by
  unfold setValue
  dsimp only
  split
  · rfl
  · split
    · rfl
    · split <;> rfl
end

theorem storedAngle_congr (a : ℝ) : ∃ k : ℤ, storedAngle realMath a - a = 2 * Real.pi * k := by
  unfold storedAngle
  simp only [realMath]
  by_cases h : a < 0
  · obtain ⟨k, hk⟩ := parseInt_eq_intCast (0.5 * (Real.pi * 2 + a) / Real.pi)
    refine ⟨1 - k, ?_⟩
    simp only [h, if_true, hk]
    push_cast
    ring
  · obtain ⟨k, hk⟩ := parseInt_eq_intCast (0.5 * a / Real.pi)
    refine ⟨- k, ?_⟩
    simp only [h, if_false, hk]
    push_cast
    ring

theorem storedAngle_neg_half_pi : storedAngle realMath (-(Real.pi / 2)) = 3 * Real.pi / 2 := by
  have hpi := Real.pi_pos
  unfold storedAngle
  simp only [realMath]
  have h : -(Real.pi / 2) < 0 := by linarith
  simp only [h, if_true]
  have e : (0.5 * (Real.pi * 2 + -(Real.pi / 2)) / Real.pi) = 3 / 4 := by
    field_simp; ring
  rw [e, parseInt_of_nonneg (by norm_num)]
  have : ⌊(3 / 4 : ℝ)⌋ = 0 := by rw [Int.floor_eq_iff]; norm_num
  rw [this]; push_cast; ring

theorem storedAngle_five_pi : storedAngle realMath (5 * Real.pi) = Real.pi := by
  have hpi := Real.pi_pos
  unfold storedAngle
  simp only [realMath]
  have h : ¬ (5 * Real.pi < 0) := by linarith
  simp only [h, if_false]
  have e : (0.5 * (5 * Real.pi) / Real.pi) = 5 / 2 := by
    field_simp; ring
  rw [e, parseInt_of_nonneg (by norm_num)]
  have : ⌊(5 / 2 : ℝ)⌋ = 2 := by rw [Int.floor_eq_iff]; norm_num
  rw [this]; push_cast; ring

theorem storedAngle_neg_three_pi : storedAngle realMath (-(3 * Real.pi)) = -Real.pi := by
  have hpi := Real.pi_pos
  unfold storedAngle
  simp only [realMath]
  have h : -(3 * Real.pi) < 0 := by linarith
  simp only [h, if_true]
  have e : (0.5 * (Real.pi * 2 + -(3 * Real.pi)) / Real.pi) = -(1 / 2) := by
    field_simp; ring
  rw [e, parseInt_of_neg (by norm_num)]
  have : ⌈(-(1 / 2) : ℝ)⌉ = 0 := by rw [Int.ceil_eq_iff]; norm_num
  rw [this]; push_cast; ring

theorem storedAngle_mem (a : ℝ) (h : -(2 * Real.pi) ≤ a) :
    0 ≤ storedAngle realMath a ∧ storedAngle realMath a < 2 * Real.pi := by
  have hpi := Real.pi_pos
  have key : ∀ b : ℝ, 0 ≤ b → 0 ≤ b - Real.pi * 2 * parseInt (0.5 * b / Real.pi) ∧
      b - Real.pi * 2 * parseInt (0.5 * b / Real.pi) < 2 * Real.pi := by
    intro b hb
    have hq : 0 ≤ 0.5 * b / Real.pi := by positivity
    rw [parseInt_of_nonneg hq]
    have h1 := Int.floor_le (0.5 * b / Real.pi)
    have h2 := Int.lt_floor_add_one (0.5 * b / Real.pi)
    have e : b = Real.pi * 2 * (0.5 * b / Real.pi) := by field_simp; ring
    constructor
    · nlinarith
    · nlinarith
  unfold storedAngle
  simp only [realMath]
  by_cases hn : a < 0
  · simp only [hn, if_true]
    exact key _ (by linarith)
  · simp only [hn, if_false]
    exact key _ (not_lt.mp hn)
section
variable [LinearOrderedField α]

/-- A scalar option is resolved to the default exactly when it is still
undefined after the radii have been derived. -/
theorem resolveOpts_get_scalar (s : String → Option α) (o : JSVal α) (ho : o.isObj = true)
    (k : String) (hk : k ∈ ["size", "rad", "bgrad", "axisrad", "angle0", "clockwise", "deg"]) :
    (resolveOpts s o).get k =
      if ((deriveRadii s o).get k).typeof = "undefined" then defopts.get k
      else (deriveRadii s o).get k := by
  have hx : k ≠ "x" := by
    simp only [List.mem_cons, List.mem_singleton, List.not_mem_nil, or_false] at hk
    rcases hk with h | h | h | h | h | h | h <;> subst h <;> decide
  have hy : k ≠ "y" := by
    simp only [List.mem_cons, List.mem_singleton, List.not_mem_nil, or_false] at hk
    rcases hk with h | h | h | h | h | h | h <;> subst h <;> decide
  rw [resolveOpts_get s o ho k hx hy,
    applySrc_defopts_scalar _ (by rw [deriveRadii_isObj]; exact ho) k hk]

theorem typeof_ne_undefined_of_truthy {v : JSVal α} (h : v.truthy = true) :
    v.typeof ≠ "undefined" := by
  cases v <;> simp_all [JSVal.truthy, JSVal.typeof]

end

section
variable [LinearOrderedField α] [FloorRing α]

theorem setValue_inputel_value (Math : MathObj α) (w : Widget α) (a : α) (el : Element α)
    (tag : String) (hel : w.inputel = some el) (htag : el.tagName = some tag)
    (hinput : toUpperCase tag = "INPUT") :
    (setValue Math w a).state.inputel.map Element.value =
      some (num (180 * storedAngle Math a / Math.PI)) := by
  unfold setValue
  simp only [hel, htag, hinput, if_true]
  rfl

omit [FloorRing α] in
theorem position_eventAt (opts : Opts α) (pos : α × α) :
    position opts (eventAt opts pos) = pos := by
  simp [position, eventAt]

theorem mousedown_angle (Math : MathObj α) (w : Widget α) (e : Event α) :
    (mousedown Math w e).angle =
      storedAngle Math (angleFromPos Math w.opts (position w.opts e)) := by
  unfold mousedown
  exact setValue_angle _ _ _

theorem mousedown_opts (Math : MathObj α) (w : Widget α) (e : Event α) :
    (mousedown Math w e).opts = w.opts := by
  unfold mousedown; rw [setValue_opts]

theorem mousedown_dragging (Math : MathObj α) (w : Widget α) (e : Event α) :
    (mousedown Math w e).dragging = true := by
  unfold mousedown; rw [setValue_dragging]

theorem mousedown_hovered (Math : MathObj α) (w : Widget α) (e : Event α) :
    (mousedown Math w e).hovered = w.hovered := by
  unfold mousedown; rw [setValue_hovered]

theorem touchstart_eq_mousedown (Math : MathObj α) (w : Widget α) (e : Event α) :
    touchstart Math w e = mousedown Math w e := rfl

theorem touchmove_eq_mousemove (Math : MathObj α) (w : Widget α) (e : Event α) :
    touchmove Math w e = mousemove Math w e := rfl

theorem touchend_eq_mouseup (Math : MathObj α) (w : Widget α) :
    touchend Math w = mouseup Math w := rfl

/-- The state after press, move, release, in terms of the state before. -/
theorem press_move_release (Math : MathObj α) (w : Widget α) (e1 e2 : Event α) :
    (mouseup Math (mousemove Math (mousedown Math w e1) e2)).dragging = false ∧
    (mouseup Math (mousemove Math (mousedown Math w e1) e2)).angle =
      (setValue Math w (angleFromPos Math w.opts (position w.opts e2))).state.angle ∧
    (mouseup Math (mousemove Math (mousedown Math w e1) e2)).canvas =
      (paint Math { w with
        angle := (setValue Math w (angleFromPos Math w.opts (position w.opts e2))).state.angle,
        dragging := false }).canvas := by
  have h2 : mousemove Math (mousedown Math w e1) e2 =
      (setValue Math (mousedown Math w e1)
        (angleFromPos Math w.opts (position w.opts e2))).state := by
    unfold mousemove; rw [mousedown_dragging, mousedown_opts]; rfl
  rw [h2]
  refine ⟨rfl, ?_, ?_⟩
  · show (setValue Math _ _).state.angle = _
    rw [setValue_angle, setValue_angle]
  · unfold mouseup paint paint_s paint_d
    simp only [setValue_angle, setValue_opts, setValue_hovered, mousedown_opts,
      mousedown_hovered]

end

theorem storedAngle_pi : storedAngle realMath Real.pi = Real.pi := by
  have hpi := Real.pi_pos
  unfold storedAngle
  simp only [realMath]
  have h : ¬ (Real.pi < 0) := by linarith
  simp only [h, if_false]
  have e : (0.5 * Real.pi / Real.pi) = 1 / 2 := by
    field_simp; norm_num
  rw [e, parseInt_of_nonneg (by norm_num)]
  have : ⌊(1 / 2 : ℝ)⌋ = 0 := by rw [Int.floor_eq_iff]; norm_num
  rw [this]; push_cast; ring

/-- With `clockwise` off, the sweep painted after a press ends in the direction
of the pointer. -/
theorem press_counterclockwise (w : Widget ℝ) (e : Event ℝ) (hc : w.opts.clockwise = false)
    (hy : parseInt ((position w.opts e).2 + 0.5) ≠ 0) :
    ∃ k : ℤ, paint_d realMath (mousedown realMath w e)
      - realMath.atan2 (position w.opts e).2 (position w.opts e).1 = 2 * Real.pi * k := by
  obtain ⟨k1, hk1⟩ := storedAngle_congr (angleFromPos realMath w.opts (position w.opts e))
  have ha : angleFromPos realMath w.opts (position w.opts e) =
      w.opts.angle0 - realMath.atan2 (position w.opts e).2 (position w.opts e).1 := by
    unfold angleFromPos
    simp [hy, hc]
  unfold paint_d
  rw [mousedown_angle, mousedown_opts]
  simp only [hc]
  obtain ⟨k2, hk2⟩ := parseInt_eq_intCast (0.5 * (w.opts.angle0 -
    storedAngle realMath (angleFromPos realMath w.opts (position w.opts e))) / realMath.PI)
  refine ⟨-k1 - k2, ?_⟩
  simp only [Bool.false_eq_true, if_false]
  rw [hk2]
  rw [ha] at hk1 ⊢
  have : realMath.PI = Real.pi := rfl
  rw [this]
  push_cast
  linarith

theorem defaultWidget_style [DivisionRing α] (d h : Bool) :
    ({ (defaultWidget : Widget α) with dragging := d, hovered := h }).opts.style
      = defopts.get "style" := by
  simp only [defaultWidget, defaultOpts]

theorem defaultWidget_draggingstyle [DivisionRing α] (d h : Bool) :
    ({ (defaultWidget : Widget α) with dragging := d, hovered := h }).opts.draggingstyle
      = defopts.get "draggingstyle" := by
  simp only [defaultWidget, defaultOpts]

/-- Reading the options resolved from `{}` gives the default geometry and
flags. -/
theorem ofJS_resolveOpts_empty [LinearOrderedField α] (s : String → Option α) :
    Opts.ofJS (resolveOpts s (JSVal.empty : JSVal α)) =
      some { (defaultOpts : Opts α) with
        style := (resolveOpts s (JSVal.empty : JSVal α)).get "style",
        draggingstyle := (resolveOpts s (JSVal.empty : JSVal α)).get "draggingstyle",
        hoveredstyle := (resolveOpts s (JSVal.empty : JSVal α)).get "hoveredstyle" } := by
  have hd : deriveRadii s (JSVal.empty : JSVal α) = JSVal.empty :=
    deriveRadii_of_falsy _ _ (by simp [get_empty, JSVal.truthy])
  have hg : ∀ k ∈ ["size", "rad", "bgrad", "axisrad", "angle0", "clockwise", "deg"],
      (resolveOpts s (JSVal.empty : JSVal α)).get k = defopts.get k := by
    intro k hk
    rw [resolveOpts_get_scalar _ _ isObj_empty k hk, hd, get_empty]
    simp [JSVal.typeof]
  have hsz : (apply (JSVal.empty : JSVal α) [defopts]).get "size" = num 64 := by
    have := hg "size" (by simp)
    rw [resolveOpts_get _ _ isObj_empty "size" (by decide) (by decide), hd] at this
    rw [← defopts_get_size, ← this]
    simp only [AngleInput.apply, List.foldr_cons, List.foldr_nil]
  have hobj : (apply (JSVal.empty : JSVal α) [defopts]).isObj = true := by
    simp only [AngleInput.apply, List.foldr_cons, List.foldr_nil, applySrc_isObj, isObj_empty]
  have hx : (resolveOpts s (JSVal.empty : JSVal α)).get "x" = num (64 / 2 + 0.5) := by
    unfold resolveOpts
    simp only [JSVal.truthy, JSVal.empty, Bool.false_eq_true, if_true]
    rw [show (obj [] fun _ => JSVal.undefined) = (JSVal.empty : JSVal α) from rfl, hd,
      get_set _ _ _ _ (by rw [isObj_set]; exact hobj), if_pos rfl, hsz]
    rfl
  have hy : (resolveOpts s (JSVal.empty : JSVal α)).get "y" = num (64 / 2 + 0.5) := by
    unfold resolveOpts
    simp only [JSVal.truthy, JSVal.empty, Bool.false_eq_true, if_true]
    rw [show (obj [] fun _ => JSVal.undefined) = (JSVal.empty : JSVal α) from rfl, hd,
      get_set _ _ _ _ (by rw [isObj_set]; exact hobj), if_neg (by decide),
      get_set _ _ _ _ hobj, if_pos rfl, hsz]
    rfl
  unfold Opts.ofJS
  rw [hg "size" (by simp), hg "rad" (by simp), hg "bgrad" (by simp), hg "axisrad" (by simp),
    hg "angle0" (by simp), hg "clockwise" (by simp), hg "deg" (by simp), hx, hy,
    defopts_get_size, defopts_get_rad, defopts_get_bgrad, defopts_get_axisrad,
    defopts_get_angle0, defopts_get_clockwise, defopts_get_deg]
  rfl
/-! ## Properties of `apply` in place -/

theorem applyInPlace_obj [Zero α] [DecidableEq α] (ks : List String) (f : String → JSVal α)
    (dest : SVal α) (σ : Store α) :
    applyInPlace (.obj ks f) dest σ = ks.foldl (fun σ key =>
      if (f key).typeof = "object" then
        let p := if (σ.get dest key).truthy then (σ, σ.get dest key) else σ.alloc
        (applyInPlace (f key) p.2 p.1).set dest key p.2
      else if (σ.get dest key).typeof = "undefined" then
        σ.set dest key (f key).prim
      else σ) σ := by
  rw [applyInPlace]

theorem Store.get_set_ref (σ : Store α) (r r' : Nat) (k j : String) (v : SVal α) :
    (σ.set (.ref r) k v).get (.ref r') j =
      if r' = r ∧ j = k then v else σ.get (.ref r') j := by
  simp only [Store.set, Store.get]
  by_cases hr : r' = r
  · subst hr
    by_cases hjk : j = k
    · subst hjk
      by_cases hm : j ∈ (σ.obj r').keys <;> simp [hm]
    · by_cases hm : k ∈ (σ.obj r').keys <;> simp [hm, hjk]
  · simp [hr]

theorem Store.next_set (σ : Store α) (d : SVal α) (k : String) (v : SVal α) :
    (σ.set d k v).next = σ.next := by
  cases d <;> rfl

theorem Store.get_alloc_ne (σ : Store α) (r : Nat) (j : String) (hr : r ≠ σ.next) :
    σ.alloc.1.get (.ref r) j = σ.get (.ref r) j := by
  simp [Store.alloc, Store.get, hr]

theorem Store.get_alloc_new (σ : Store α) (j : String) :
    σ.alloc.1.get (.ref σ.next) j = .undefined := by
  simp [Store.alloc, Store.get]

theorem Store.get_of_not_ref (σ τ : Store α) (d : SVal α) (j : String)
    (hd : ∀ r, d ≠ .ref r) : σ.get d j = τ.get d j := by
  cases d with
  | ref r => exact absurd rfl (hd r)
  | _ => rfl

theorem Store.get_undefined_of_falsy [Zero α] [DecidableEq α] (σ : Store α) (d : SVal α)
    (j : String) (hd : d.truthy = false) : σ.get d j = .undefined := by
  cases d with
  | ref r => simp [SVal.truthy] at hd
  | _ => rfl

theorem SVal.typeof_undefined_iff {v : SVal α} : v.typeof = "undefined" ↔ v = .undefined := by
  cases v <;> simp [SVal.typeof]

theorem SVal.truthy_ref [Zero α] [DecidableEq α] (r : Nat) :
    (SVal.ref r : SVal α).truthy = true := rfl

section
variable [Zero α] [DecidableEq α]

/-- The loop over the keys `l` of a source without objects, with the
destination at address `r`: only that object changes. -/
theorem foldl_inPlace_scalar (f : String → JSVal α) (l : List String)
    (hf : ∀ k ∈ l, (f k).typeof ≠ "object") (r : Nat) (σ : Store α) :
    (l.foldl (fun σ key =>
      if (f key).typeof = "object" then
        let p := if (σ.get (.ref r) key).truthy then (σ, σ.get (.ref r) key) else σ.alloc
        (applyInPlace (f key) p.2 p.1).set (.ref r) key p.2
      else if (σ.get (.ref r) key).typeof = "undefined" then
        σ.set (.ref r) key (f key).prim
      else σ) σ).next = σ.next ∧
    (∀ j, (l.foldl (fun σ key =>
      if (f key).typeof = "object" then
        let p := if (σ.get (.ref r) key).truthy then (σ, σ.get (.ref r) key) else σ.alloc
        (applyInPlace (f key) p.2 p.1).set (.ref r) key p.2
      else if (σ.get (.ref r) key).typeof = "undefined" then
        σ.set (.ref r) key (f key).prim
      else σ) σ).get (.ref r) j =
      if (σ.get (.ref r) j).typeof = "undefined" ∧ j ∈ l then (f j).prim
      else σ.get (.ref r) j) ∧
    (∀ r', r' ≠ r → ∀ j, (l.foldl (fun σ key =>
      if (f key).typeof = "object" then
        let p := if (σ.get (.ref r) key).truthy then (σ, σ.get (.ref r) key) else σ.alloc
        (applyInPlace (f key) p.2 p.1).set (.ref r) key p.2
      else if (σ.get (.ref r) key).typeof = "undefined" then
        σ.set (.ref r) key (f key).prim
      else σ) σ).get (.ref r') j = σ.get (.ref r') j) := by
  induction l generalizing σ with
  | nil => simp
  | cons k l ih =>
    have hk : (f k).typeof ≠ "object" := hf k (List.mem_cons_self _ _)
    have hl : ∀ k ∈ l, (f k).typeof ≠ "object" := fun x hx => hf x (List.mem_cons_of_mem _ hx)
    rw [List.foldl_cons]
    simp only [hk, if_false]
    by_cases hu : (σ.get (.ref r) k).typeof = "undefined"
    · simp only [hu, if_true]
      obtain ⟨h1, h2, h3⟩ := ih hl (σ.set (.ref r) k (f k).prim)
      refine ⟨by rw [h1, Store.next_set], ?_, ?_⟩
      · intro j
        rw [h2 j, Store.get_set_ref]
        by_cases hjk : j = k
        · subst hjk
          simp only [true_and, if_true, hu, List.mem_cons, true_or, and_self]
          split <;> rfl
        · simp only [hjk, and_false, if_false, List.mem_cons, false_or]
      · intro r' hr' j
        rw [h3 r' hr' j, Store.get_set_ref]
        simp [hr']
    · simp only [hu, if_false]
      obtain ⟨h1, h2, h3⟩ := ih hl σ
      refine ⟨h1, ?_, h3⟩
      intro j
      rw [h2 j]
      by_cases hjk : j = k
      · subst hjk
        simp [hu]
      · simp only [List.mem_cons, hjk, false_or]

/-- Applying a source without objects to the object at address `r` fills the
undefined keys of that object and changes nothing else. -/
theorem applyInPlace_scalar (src : JSVal α)
    (hs : ∀ k ∈ src.keys, (src.get k).typeof ≠ "object") (r : Nat) (σ : Store α) :
    (applyInPlace src (.ref r) σ).next = σ.next ∧
    (∀ j, (applyInPlace src (.ref r) σ).get (.ref r) j =
      if (σ.get (.ref r) j).typeof = "undefined" then (src.get j).prim
      else σ.get (.ref r) j) ∧
    (∀ r', r' ≠ r → ∀ j, (applyInPlace src (.ref r) σ).get (.ref r') j = σ.get (.ref r') j) := by
  by_cases hso : src.isObj = true
  · cases src with
    | obj ks f =>
      have hf : ∀ k ∈ ks, (f k).typeof ≠ "object" := by
        intro k hk
        have := hs k hk
        simpa [JSVal.get, hk] using this
      rw [applyInPlace_obj]
      obtain ⟨h1, h2, h3⟩ := foldl_inPlace_scalar f ks hf r σ
      refine ⟨h1, ?_, h3⟩
      intro j
      rw [h2 j, get_obj]
      by_cases hu : (σ.get (.ref r) j).typeof = "undefined"
      · by_cases hm : j ∈ ks
        · simp [hu, hm]
        · simp only [hu, hm, and_false, if_false, if_true]
          rw [SVal.typeof_undefined_iff.mp hu]
          rfl
      · simp [hu]
    | _ => simp [JSVal.isObj] at hso
  · have hso' : src.isObj = false := by simpa using hso
    have h1 : applyInPlace src (.ref r) σ = σ := by
      cases src <;> first | rfl | simp [JSVal.isObj] at hso'
    rw [h1]
    refine ⟨rfl, ?_, fun _ _ _ => rfl⟩
    intro j
    by_cases hu : (σ.get (.ref r) j).typeof = "undefined"
    · rw [if_pos hu, get_of_not_isObj src _ hso']
      exact SVal.typeof_undefined_iff.mp hu
    · rw [if_neg hu]

end
section
variable [Zero α] [DecidableEq α]

theorem applyInPlace_foldl (ks : List String) (f : String → JSVal α)
    (dest : SVal α) (σ : Store α) :
    applyInPlace (.obj ks f) dest σ = ks.foldl (applyKeyInPlace f dest) σ := by
  rw [applyInPlace_obj]
  rfl

/-- What one pass of the loop body does to the store, when the nested option
under the key is undefined, falsy or an object other than the destination. -/
theorem applyKeyInPlace_spec (f : String → JSVal α) (r0 : Nat) (σ : Store α) (k : String)
    (h0 : r0 < σ.next)
    (hS : (f k).typeof = "object" → ∀ a ∈ (f k).keys, ((f k).get a).typeof ≠ "object")
    (hobj : (f k).typeof = "object" → (σ.get (.ref r0) k).truthy = true →
      ∃ r, σ.get (.ref r0) k = .ref r ∧ r < σ.next ∧ r ≠ r0) :
    σ.next ≤ (applyKeyInPlace f (.ref r0) σ k).next ∧
    (∀ j, j ≠ k → (applyKeyInPlace f (.ref r0) σ k).get (.ref r0) j = σ.get (.ref r0) j) ∧
    (∀ r, r < σ.next → r ≠ r0 → ((f k).typeof = "object" → σ.get (.ref r0) k ≠ .ref r) →
      ∀ j, (applyKeyInPlace f (.ref r0) σ k).get (.ref r) j = σ.get (.ref r) j) ∧
    ((f k).typeof ≠ "object" →
      (applyKeyInPlace f (.ref r0) σ k).get (.ref r0) k =
        if (σ.get (.ref r0) k).typeof = "undefined" then (f k).prim else σ.get (.ref r0) k) ∧
    ((f k).typeof = "object" →
      ∃ r, (applyKeyInPlace f (.ref r0) σ k).get (.ref r0) k = .ref r ∧
        r < (applyKeyInPlace f (.ref r0) σ k).next ∧ r ≠ r0 ∧
        (σ.next ≤ r ∨ σ.get (.ref r0) k = .ref r) ∧
        ∀ a, (applyKeyInPlace f (.ref r0) σ k).get (.ref r) a =
          if (σ.get (σ.get (.ref r0) k) a).typeof = "undefined" then ((f k).get a).prim
          else σ.get (σ.get (.ref r0) k) a) := by
  by_cases hN : (f k).typeof = "object"
  · -- a nested default
    have hsc := hS hN
    by_cases ht : (σ.get (.ref r0) k).truthy = true
    · obtain ⟨r, hr, hlt, hne⟩ := hobj hN ht
      have hstep : applyKeyInPlace f (.ref r0) σ k =
          (applyInPlace (f k) (.ref r) σ).set (.ref r0) k (.ref r) := by
        simp only [applyKeyInPlace, hN, if_true, hr, SVal.truthy_ref]
      obtain ⟨i1, i2, i3⟩ := applyInPlace_scalar (f k) hsc r σ
      rw [hstep]
      refine ⟨by rw [Store.next_set, i1], ?_, ?_, fun h => absurd hN h, fun _ => ?_⟩
      · intro j hj
        rw [Store.get_set_ref, if_neg (by simp [hj]), i3 r0 (Ne.symm hne)]
      · intro r' _ hr0 hnr j
        have hrr : r' ≠ r := by
          intro h; subst h; exact hnr hN hr
        rw [Store.get_set_ref, if_neg (by simp [hr0]), i3 r' hrr]
      · refine ⟨r, ?_, by rw [Store.next_set, i1]; exact hlt, hne, Or.inr hr, ?_⟩
        · rw [Store.get_set_ref, if_pos ⟨rfl, rfl⟩]
        · intro a
          rw [Store.get_set_ref, if_neg (by simp [hne]), i2 a, hr]
    · have htf : (σ.get (.ref r0) k).truthy = false := by simpa using ht
      have hstep : applyKeyInPlace f (.ref r0) σ k =
          (applyInPlace (f k) (.ref σ.next) σ.alloc.1).set (.ref r0) k (.ref σ.next) := by
        simp only [applyKeyInPlace, hN, if_true, htf, Bool.false_eq_true, if_false]
        rfl
      obtain ⟨i1, i2, i3⟩ := applyInPlace_scalar (f k) hsc σ.next σ.alloc.1
      have hne : σ.next ≠ r0 := Nat.ne_of_gt h0
      have hn1 : σ.alloc.1.next = σ.next + 1 := rfl
      rw [hstep]
      refine ⟨by rw [Store.next_set, i1, hn1]; omega, ?_, ?_, fun h => absurd hN h, fun _ => ?_⟩
      · intro j hj
        rw [Store.get_set_ref, if_neg (by simp [hj]), i3 r0 (Ne.symm hne),
          Store.get_alloc_ne _ _ _ (Ne.symm hne)]
      · intro r' hlt hr0 _ j
        have hrr : r' ≠ σ.next := Nat.ne_of_lt hlt
        rw [Store.get_set_ref, if_neg (by simp [hr0]), i3 r' hrr, Store.get_alloc_ne _ _ _ hrr]
      · refine ⟨σ.next, ?_, by rw [Store.next_set, i1, hn1]; omega, hne, Or.inl (le_refl _), ?_⟩
        · rw [Store.get_set_ref, if_pos ⟨rfl, rfl⟩]
        · intro a
          rw [Store.get_set_ref, if_neg (by simp [hne]), i2 a, Store.get_alloc_new,
            Store.get_undefined_of_falsy σ _ a htf]
  · -- a scalar default
    by_cases hu : (σ.get (.ref r0) k).typeof = "undefined"
    · have hstep : applyKeyInPlace f (.ref r0) σ k = σ.set (.ref r0) k (f k).prim := by
        simp only [applyKeyInPlace, hN, if_false, hu, if_true]
      rw [hstep]
      refine ⟨by rw [Store.next_set], ?_, ?_, fun _ => ?_, fun h => absurd h hN⟩
      · intro j hj
        rw [Store.get_set_ref, if_neg (by simp [hj])]
      · intro r' _ hr0 _ j
        rw [Store.get_set_ref, if_neg (by simp [hr0])]
      · rw [Store.get_set_ref, if_pos ⟨rfl, rfl⟩, if_pos hu]
    · have hstep : applyKeyInPlace f (.ref r0) σ k = σ := by
        simp only [applyKeyInPlace, hN, if_false, hu]
      rw [hstep]
      refine ⟨le_refl _, fun _ _ => rfl, fun _ _ _ _ _ => rfl, fun _ => ?_, fun h => absurd h hN⟩
      rw [if_neg hu]

end
section
variable [Zero α] [DecidableEq α]

/-- The loop of `applyInPlace` over distinct keys `l`, on the object at address
`r0` whose nested options are separate objects. -/
theorem foldl_applyKeyInPlace (f : String → JSVal α) (r0 : Nat) (l : List String)
    (hl : l.Nodup) (σ : Store α) (h0 : r0 < σ.next)
    (hS : ∀ k ∈ l, (f k).typeof = "object" →
      ∀ a ∈ (f k).keys, ((f k).get a).typeof ≠ "object")
    (hobj : ∀ k ∈ l, (f k).typeof = "object" → (σ.get (.ref r0) k).truthy = true →
      ∃ r, σ.get (.ref r0) k = .ref r ∧ r < σ.next ∧ r ≠ r0)
    (hdist : ∀ k ∈ l, ∀ k' ∈ l, k ≠ k' → (f k).typeof = "object" → (f k').typeof = "object" →
      ∀ r, σ.get (.ref r0) k = .ref r → σ.get (.ref r0) k' ≠ .ref r) :
    σ.next ≤ (l.foldl (applyKeyInPlace f (.ref r0)) σ).next ∧
    (∀ j, j ∉ l → (l.foldl (applyKeyInPlace f (.ref r0)) σ).get (.ref r0) j
      = σ.get (.ref r0) j) ∧
    (∀ r, r < σ.next → r ≠ r0 →
      (∀ k ∈ l, (f k).typeof = "object" → σ.get (.ref r0) k ≠ .ref r) →
      ∀ j, (l.foldl (applyKeyInPlace f (.ref r0)) σ).get (.ref r) j = σ.get (.ref r) j) ∧
    (∀ j ∈ l, (f j).typeof ≠ "object" →
      (l.foldl (applyKeyInPlace f (.ref r0)) σ).get (.ref r0) j =
        if (σ.get (.ref r0) j).typeof = "undefined" then (f j).prim
        else σ.get (.ref r0) j) ∧
    (∀ j ∈ l, (f j).typeof = "object" → ∀ a,
      (l.foldl (applyKeyInPlace f (.ref r0)) σ).get
          ((l.foldl (applyKeyInPlace f (.ref r0)) σ).get (.ref r0) j) a =
        if (σ.get (σ.get (.ref r0) j) a).typeof = "undefined" then ((f j).get a).prim
        else σ.get (σ.get (.ref r0) j) a) := by
  induction l generalizing σ with
  | nil =>
    refine ⟨le_refl _, fun _ _ => rfl, fun _ _ _ _ _ => rfl, ?_, ?_⟩
    · intro j hj; simp at hj
    · intro j hj; simp at hj
  | cons k t ih =>
    rw [List.nodup_cons] at hl
    obtain ⟨hkt, hnt⟩ := hl
    have hk : k ∈ k :: t := List.mem_cons_self _ _
    have hmem : ∀ x ∈ t, x ∈ k :: t := fun x hx => List.mem_cons_of_mem _ hx
    obtain ⟨s1, s2, s3, s4, s5⟩ :=
      applyKeyInPlace_spec f r0 σ k h0 (hS k hk) (hobj k hk)
    have hne : ∀ x ∈ t, x ≠ k := fun x hx h => hkt (h ▸ hx)
    -- the options under the remaining keys are untouched by the first pass
    have hget : ∀ x ∈ t, (applyKeyInPlace f (.ref r0) σ k).get (.ref r0) x
        = σ.get (.ref r0) x := fun x hx => s2 x (hne x hx)
    have h0' : r0 < (applyKeyInPlace f (.ref r0) σ k).next := lt_of_lt_of_le h0 s1
    have hobj' : ∀ x ∈ t, (f x).typeof = "object" →
        ((applyKeyInPlace f (.ref r0) σ k).get (.ref r0) x).truthy = true →
        ∃ r, (applyKeyInPlace f (.ref r0) σ k).get (.ref r0) x = .ref r ∧
          r < (applyKeyInPlace f (.ref r0) σ k).next ∧ r ≠ r0 := by
      intro x hx hN ht
      rw [hget x hx] at ht ⊢
      obtain ⟨r, hr, hlt, hr0⟩ := hobj x (hmem x hx) hN ht
      exact ⟨r, hr, lt_of_lt_of_le hlt s1, hr0⟩
    have hdist' : ∀ x ∈ t, ∀ y ∈ t, x ≠ y → (f x).typeof = "object" →
        (f y).typeof = "object" →
        ∀ r, (applyKeyInPlace f (.ref r0) σ k).get (.ref r0) x = .ref r →
          (applyKeyInPlace f (.ref r0) σ k).get (.ref r0) y ≠ .ref r := by
      intro x hx y hy hxy hNx hNy r hr
      rw [hget x hx] at hr
      rw [hget y hy]
      exact hdist x (hmem x hx) y (hmem y hy) hxy hNx hNy r hr
    obtain ⟨c1, c2, c3, c4, c5⟩ := ih hnt (applyKeyInPlace f (.ref r0) σ k) h0'
      (fun x hx => hS x (hmem x hx)) hobj' hdist'
    rw [List.foldl_cons]
    -- an object the user supplied under a later key is untouched by the first pass
    have hframe : ∀ x ∈ t, (f x).typeof = "object" → ∀ a,
        (applyKeyInPlace f (.ref r0) σ k).get (σ.get (.ref r0) x) a
          = σ.get (σ.get (.ref r0) x) a := by
      intro x hx hNx a
      by_cases ht : (σ.get (.ref r0) x).truthy = true
      · obtain ⟨r, hr, hlt, hr0⟩ := hobj x (hmem x hx) hNx ht
        rw [hr]
        apply s3 r hlt hr0
        intro hNk
        exact hdist x (hmem x hx) k hk (hne x hx) hNx hNk r hr
      · have htf : (σ.get (.ref r0) x).truthy = false := by simpa using ht
        rw [Store.get_undefined_of_falsy _ _ a htf, Store.get_undefined_of_falsy _ _ a htf]
    refine ⟨le_trans s1 c1, ?_, ?_, ?_, ?_⟩
    · intro j hj
      rw [List.mem_cons, not_or] at hj
      rw [c2 j hj.2, s2 j hj.1]
    · intro r hlt hr0 hnr j
      rw [c3 r (lt_of_lt_of_le hlt s1) hr0 ?_ j, s3 r hlt hr0 (hnr k hk) j]
      intro x hx hNx
      rw [hget x hx]
      exact hnr x (hmem x hx) hNx
    · intro j hj hNj
      rw [List.mem_cons] at hj
      rcases hj with hj | hj
      · subst hj
        rw [c2 j hkt, s4 hNj]
      · rw [c4 j hj hNj, hget j hj]
    · intro j hj hNj a
      rw [List.mem_cons] at hj
      rcases hj with hj | hj
      · subst hj
        obtain ⟨r, e1, e2, e3, e4, e5⟩ := s5 hNj
        rw [c2 j hkt, e1, c3 r e2 e3 ?_ a, e5 a]
        intro x hx hNx
        rw [hget x hx]
        rcases e4 with e4 | e4
        · intro hx'
          have ht : (σ.get (.ref r0) x).truthy = true := by rw [hx']; rfl
          obtain ⟨r', hr', hlt', _⟩ := hobj x (hmem x hx) hNx ht
          rw [hx'] at hr'
          injection hr' with hr'
          omega
        · exact hdist j hk x (hmem x hx) (fun h => hne x hx h.symm) hNj hNx r e4
      · rw [c5 j hj hNj a, hget j hj, hframe j hj hNj a]

end
section
variable [LinearOrderedField α]

theorem defopts_typeof_object_iff (k : String) (hk : k ∈ (defopts : JSVal α).keys) :
    ((defopts : JSVal α).get k).typeof = "object" ↔
      k ∈ ["style", "draggingstyle", "hoveredstyle"] := by
  rw [defopts_keys] at hk
  simp only [List.mem_cons, List.mem_singleton, List.not_mem_nil, or_false] at hk
  rcases hk with h | h | h | h | h | h | h | h | h | h <;> subst h
  · rw [defopts_get_size]; simp [JSVal.typeof]
  · rw [defopts_get_rad]; simp [JSVal.typeof]
  · rw [defopts_get_bgrad]; simp [JSVal.typeof]
  · rw [defopts_get_axisrad]; simp [JSVal.typeof]
  · rw [defopts_get_angle0]; simp [JSVal.typeof]
  · rw [defopts_get_clockwise]; simp [JSVal.typeof]
  · rw [defopts_get_deg]; simp [JSVal.typeof]
  · rw [defopts_get_style]; simp [typeof_of_isObj (isObj_ofList _)]
  · rw [defopts_get_draggingstyle]; simp [typeof_of_isObj (isObj_ofList _)]
  · rw [defopts_get_hoveredstyle]; simp [typeof_of_isObj (isObj_ofList _)]

/-- The store after `applyInPlace src` on the object at address `r0`, for a
source with distinct keys whose object values are the ones under the keys
`nested` and hold no objects themselves. -/
theorem applyInPlace_spec (src : JSVal α) (nested : List String) (hn : src.keys.Nodup)
    (hiff : ∀ k ∈ src.keys, (src.get k).typeof = "object" ↔ k ∈ nested)
    (hsc : ∀ sk ∈ nested, ∀ a ∈ (src.get sk).keys, ((src.get sk).get a).typeof ≠ "object")
    (σ : Store α) (r0 : Nat) (h0 : r0 < σ.next)
    (hobj : ∀ sk ∈ nested, (σ.get (.ref r0) sk).truthy = true →
        ∃ r, σ.get (.ref r0) sk = .ref r ∧ r < σ.next ∧ r ≠ r0)
    (hdist : ∀ sk ∈ nested, ∀ sk' ∈ nested, sk ≠ sk' →
        ∀ r, σ.get (.ref r0) sk = .ref r → σ.get (.ref r0) sk' ≠ .ref r) :
    (∀ k ∈ src.keys, k ∉ nested →
      (applyInPlace src (.ref r0) σ).get (.ref r0) k =
        if (σ.get (.ref r0) k).typeof = "undefined" then (src.get k).prim
        else σ.get (.ref r0) k) ∧
    (∀ sk ∈ src.keys, sk ∈ nested → ∀ attr : String,
      (applyInPlace src (.ref r0) σ).get ((applyInPlace src (.ref r0) σ).get (.ref r0) sk) attr =
        if (σ.get (σ.get (.ref r0) sk) attr).typeof = "undefined" then
          ((src.get sk).get attr).prim
        else σ.get (σ.get (.ref r0) sk) attr) := by
  cases src with
  | obj ks f =>
    have hf : ∀ k ∈ ks, f k = (JSVal.obj ks f).get k := by
      intro k hk; rw [get_obj, if_pos hk]
    have hfold := foldl_applyKeyInPlace f r0 ks hn σ h0
      (by
        intro k hk hN
        rw [hf k hk] at hN ⊢
        exact hsc k ((hiff k hk).mp hN))
      (by
        intro k hk hN ht
        rw [hf k hk] at hN
        exact hobj k ((hiff k hk).mp hN) ht)
      (by
        intro k hk k' hk' hne hN hN' r hr
        rw [hf k hk] at hN
        rw [hf k' hk'] at hN'
        exact hdist k ((hiff k hk).mp hN) k' ((hiff k' hk').mp hN') hne r hr)
    rw [applyInPlace_foldl]
    obtain ⟨_, _, _, c4, c5⟩ := hfold
    constructor
    · intro k hk hnot
      have hmem : k ∈ ks := hk
      have hN : (f k).typeof ≠ "object" := by
        rw [hf k hmem]
        exact fun h => hnot ((hiff k hk).mp h)
      rw [c4 k hmem hN, hf k hmem]
    · intro sk hk hsk attr
      have hmem : sk ∈ ks := hk
      have hN : (f sk).typeof = "object" := by
        rw [hf sk hmem]; exact (hiff sk hk).mpr hsk
      rw [c5 sk hmem hN attr, hf sk hmem]
  | _ =>
    constructor
    · intro k hk; simp [JSVal.keys] at hk
    · intro k hk; simp [JSVal.keys] at hk

end

/-! ## The claims -/

/-- Claim C1, at the input `-3π`: `setValue(-3π)` adds `2π` once, truncates
`-0.5` to `0`, and stores `-π`, which is below the interval `[0, 2π)`. -/
theorem setValue_angle_below_range :
    ∀ w : Widget ℝ, (setValue realMath w (-(3 * Real.pi))).state.angle = -Real.pi ∧
      ¬ (0 ≤ (setValue realMath w (-(3 * Real.pi))).state.angle) := by
  intro w
  have hpi := Real.pi_pos
  rw [setValue_angle, storedAngle_neg_three_pi]
  exact ⟨rfl, by linarith⟩

/-- Claim C2: for every real `a` the angle stored by `setValue(a)` differs from
`a` by an integer multiple of `2π`; `setValue(-π/2)` stores `3π/2` and
`setValue(5π)` stores `π`. -/
theorem setValue_congruent_mod_two_pi :
    (∀ (w : Widget ℝ) (a : ℝ),
      ∃ k : ℤ, (setValue realMath w a).state.angle - a = 2 * Real.pi * k) ∧
    (∀ w : Widget ℝ, (setValue realMath w (-(Real.pi / 2))).state.angle = 3 * Real.pi / 2) ∧
    (∀ w : Widget ℝ, (setValue realMath w (5 * Real.pi)).state.angle = Real.pi) := by
  refine ⟨?_, ?_, ?_⟩
  · intro w a
    rw [setValue_angle]
    exact storedAngle_congr a
  · intro w
    rw [setValue_angle, storedAngle_neg_half_pi]
  · intro w
    rw [setValue_angle, storedAngle_five_pi]

/-- Claim C3: when the bound node is an `INPUT` element, `setValue(a)` writes
`180·angle/π` to its value, `angle` being the angle the same call stores,
whatever the `deg` option is; `setValue(π)` writes `180`. -/
theorem setValue_writes_degrees (w : Widget ℝ) (deg : Bool) (a : ℝ) (el : Element ℝ)
    (tag : String) (hel : w.inputel = some el) (htag : el.tagName = some tag)
    (hinput : toUpperCase tag = "INPUT") :
    (setValue realMath { w with opts := { w.opts with deg := deg } } a).state.inputel.map
        Element.value =
      some (num (180 *
        (setValue realMath { w with opts := { w.opts with deg := deg } } a).state.angle
          / Real.pi)) ∧
    (setValue realMath { w with opts := { w.opts with deg := deg } } Real.pi).state.inputel.map
        Element.value = some (num 180) := by
  have hpi := Real.pi_pos
  constructor
  · rw [setValue_inputel_value realMath { w with opts := { w.opts with deg := deg } } a el tag
      hel htag hinput, setValue_angle]
    rfl
  · rw [setValue_inputel_value realMath { w with opts := { w.opts with deg := deg } } Real.pi el
      tag hel htag hinput, storedAngle_pi]
    have : (180 * Real.pi / realMath.PI) = 180 := by
      show (180 * Real.pi / Real.pi) = 180
      field_simp
    rw [this]

/-- An instance of `setValue_writes_degrees`: the default widget, bound to an
`INPUT` element, with `deg` off. -/
theorem setValue_writes_degrees_witness :
    toUpperCase "INPUT" = "INPUT" ∧
    (setValue realMath
        { (defaultWidget : Widget ℝ) with opts := { (defaultOpts : Opts ℝ) with deg := false } }
        Real.pi).state.inputel.map Element.value = some (num 180) :=
  ⟨by decide,
   (setValue_writes_degrees defaultWidget false 1
      { tagName := some "INPUT", value := .str "", changeEvents := 0 } "INPUT"
      rfl rfl (by decide)).2⟩

/-- Claim C4: while `dragging` is true, the style `s` that `paint` computes has
under every key the value of `draggingstyle` if that is defined and the value
of `style` otherwise, for every `hovered` and `hoveredstyle`; the values of
`style` and `draggingstyle` are scalars (not of type object). -/
theorem paint_style_while_dragging [Zero α] [DecidableEq α] (w : Widget α)
    (hdrag : w.dragging = true)
    (hstyle : ∀ k ∈ w.opts.style.keys, (w.opts.style.get k).typeof ≠ "object")
    (hds : ∀ k ∈ w.opts.draggingstyle.keys, (w.opts.draggingstyle.get k).typeof ≠ "object")
    (k : String) :
    (paint_s w).get k =
      if (w.opts.draggingstyle.get k).typeof = "undefined" then w.opts.style.get k
      else w.opts.draggingstyle.get k := by
  unfold paint_s AngleInput.apply
  simp only [hdrag, if_true, List.foldr_cons, List.foldr_nil]
  have hover : ∀ j, (applySrc (if w.opts.draggingstyle.truthy = true then w.opts.draggingstyle
      else JSVal.empty) JSVal.empty).get j = w.opts.draggingstyle.get j := by
    intro j
    by_cases ht : w.opts.draggingstyle.truthy = true
    · rw [if_pos ht, applySrc_scalar_get _ _ hds isObj_empty, get_empty]
      simp [JSVal.typeof]
    · rw [if_neg ht]
      have hno : w.opts.draggingstyle.isObj = false := by
        cases h : w.opts.draggingstyle <;> simp_all [JSVal.isObj, JSVal.truthy]
      rw [get_of_not_isObj _ _ hno]
      rfl
  rw [applySrc_scalar_get _ _ hstyle (by rw [applySrc_isObj]; rfl), hover]

/-- An instance of `paint_style_while_dragging`: the default widget, dragged
and hovered at once, is stroked in the dragging colour and keeps the
background fill of the base style. -/
theorem paint_style_while_dragging_witness :
    ({ (defaultWidget : Widget ℚ) with dragging := true, hovered := true }).dragging = true ∧
    (paint_s { (defaultWidget : Widget ℚ) with dragging := true, hovered := true }).get "stroke"
      = str "blue" ∧
    (paint_s { (defaultWidget : Widget ℚ) with dragging := true, hovered := true }).get "bgfill"
      = str "#dddddd" := by
  have h := paint_style_while_dragging
    { (defaultWidget : Widget ℚ) with dragging := true, hovered := true } rfl
    (by rw [defaultWidget_style]; exact defopts_nested_scalar "style" (by simp))
    (by rw [defaultWidget_draggingstyle]; exact defopts_nested_scalar "draggingstyle" (by simp))
  rw [defaultWidget_style, defaultWidget_draggingstyle] at h
  refine ⟨rfl, ?_, ?_⟩
  · rw [h "stroke"]
    simp [defopts_get_draggingstyle, ofList, get_set, isObj_set,
      isObj_empty, get_empty, JSVal.typeof]
  · rw [h "bgfill"]
    simp [defopts_get_draggingstyle, defopts_get_style, ofList,
      get_set, isObj_set, isObj_empty, get_empty, JSVal.typeof]

/-- Claim C5, at the offset `(-0.5, -10.5)` with `angle0 = 0` and `clockwise`
off: the horizontal offset rounds to zero and the vertical is negative, but the
second conditional overwrites the cardinal angle and `angleFromPos` returns
`-atan2(-10.5, -0.5)`, which is not `angle0 + π/2`. -/
theorem angleFromPos_vertical_offset :
    parseInt ((-0.5 : ℝ) + 0.5) = 0 ∧ (-10.5 : ℝ) < 0 ∧
    angleFromPos realMath { (defaultOpts : Opts ℝ) with clockwise := false } (-0.5, -10.5)
      = 0 - realMath.atan2 (-10.5) (-0.5) ∧
    angleFromPos realMath { (defaultOpts : Opts ℝ) with clockwise := false } (-0.5, -10.5)
      ≠ 0 + Real.pi / 2 := by
  have hp : parseInt ((-10.5 : ℝ) + 0.5) = -10 := by
    rw [parseInt_of_neg (by norm_num)]
    have : ⌈((-10.5 : ℝ) + 0.5)⌉ = -10 := by rw [Int.ceil_eq_iff]; norm_num
    rw [this]; norm_num
  have hv : angleFromPos realMath { (defaultOpts : Opts ℝ) with clockwise := false }
      (-0.5, -10.5) = 0 - Complex.arg ⟨-0.5, -10.5⟩ := by
    unfold angleFromPos
    simp only [hp, realMath, defaultOpts]
    norm_num
  refine ⟨?_, by norm_num, hv, ?_⟩
  · rw [show ((-0.5 : ℝ) + 0.5) = 0 by norm_num]
    simp [parseInt]
  · rw [hv]
    intro h
    have h2 : Complex.arg ⟨-0.5, -10.5⟩ = -(Real.pi / 2) := by linarith
    rw [Complex.arg_eq_neg_pi_div_two_iff] at h2
    norm_num at h2

/-- Claim C6, amended: with the supplied `style`, `draggingstyle` and
`hoveredstyle` separate objects (different from one another and from the
options object), `apply(opts, defopts)` leaves under each of the scalar keys
`size`, `angle0`, `clockwise`, `deg` and under each attribute of the three
style objects the user's value when the user supplied one (its type is not
undefined) and writes the default otherwise. -/
theorem apply_in_place_defopts [LinearOrderedField α] (σ : Store α) (r0 : Nat) (h0 : r0 < σ.next)
    (hobj : ∀ sk ∈ ["style", "draggingstyle", "hoveredstyle"],
      (σ.get (.ref r0) sk).truthy = true →
        ∃ r, σ.get (.ref r0) sk = .ref r ∧ r < σ.next ∧ r ≠ r0)
    (hdist : ∀ sk ∈ ["style", "draggingstyle", "hoveredstyle"],
      ∀ sk' ∈ ["style", "draggingstyle", "hoveredstyle"], sk ≠ sk' →
        ∀ r, σ.get (.ref r0) sk = .ref r → σ.get (.ref r0) sk' ≠ .ref r) :
    (∀ k ∈ ["size", "angle0", "clockwise", "deg"],
      (applyInPlace defopts (.ref r0) σ).get (.ref r0) k =
        if (σ.get (.ref r0) k).typeof = "undefined" then (defopts.get k).prim
        else σ.get (.ref r0) k) ∧
    (∀ sk ∈ ["style", "draggingstyle", "hoveredstyle"], ∀ attr : String,
      (applyInPlace defopts (.ref r0) σ).get
          ((applyInPlace defopts (.ref r0) σ).get (.ref r0) sk) attr =
        if (σ.get (σ.get (.ref r0) sk) attr).typeof = "undefined" then
          ((defopts.get sk).get attr).prim
        else σ.get (σ.get (.ref r0) sk) attr) := by
  obtain ⟨h1, h2⟩ := applyInPlace_spec (defopts : JSVal α)
    ["style", "draggingstyle", "hoveredstyle"] defopts_keys_nodup
    defopts_typeof_object_iff defopts_nested_scalar σ r0 h0 hobj hdist
  constructor
  · intro k hk
    simp only [List.mem_cons, List.mem_singleton, List.not_mem_nil, or_false] at hk
    rcases hk with h | h | h | h <;> subst h <;>
      exact h1 _ (by rw [defopts_keys]; simp) (by simp)
  · intro sk hsk attr
    have hmem : sk ∈ (defopts : JSVal α).keys := by
      rw [defopts_keys]
      simp only [List.mem_cons, List.mem_singleton, List.not_mem_nil, or_false] at hsk
      rcases hsk with h | h | h <;> subst h <;> simp
    exact h2 sk hmem hsk attr

/-- An instance of `apply_in_place_defopts`: on the options
`{size: 100, style: {stroke: "red"}}` the size and the stroke stay the user's,
`deg` and the fill take their defaults. -/
theorem apply_in_place_defopts_witness :
    (0 : Nat) < (sampleStore : Store ℚ).next ∧
    (applyInPlace defopts (.ref 0) (sampleStore : Store ℚ)).get (.ref 0) "size" = .num 100 ∧
    (applyInPlace defopts (.ref 0) (sampleStore : Store ℚ)).get (.ref 0) "deg" = .bool true ∧
    (applyInPlace defopts (.ref 0) (sampleStore : Store ℚ)).get
      ((applyInPlace defopts (.ref 0) (sampleStore : Store ℚ)).get (.ref 0) "style") "stroke"
        = .str "red" ∧
    (applyInPlace defopts (.ref 0) (sampleStore : Store ℚ)).get
      ((applyInPlace defopts (.ref 0) (sampleStore : Store ℚ)).get (.ref 0) "style") "fill"
        = .str "rgba(0,0,255,0.4)" := by
  have h0 : (0 : Nat) < (sampleStore : Store ℚ).next := by decide
  have hstyle : (sampleStore : Store ℚ).get (.ref 0) "style" = .ref 1 := by
    simp [sampleStore, Store.get]
  have hdrag : (sampleStore : Store ℚ).get (.ref 0) "draggingstyle" = .undefined := by
    simp [sampleStore, Store.get]
  have hhov : (sampleStore : Store ℚ).get (.ref 0) "hoveredstyle" = .undefined := by
    simp [sampleStore, Store.get]
  have h := apply_in_place_defopts (sampleStore : Store ℚ) 0 h0
    (by
      intro sk hsk ht
      simp only [List.mem_cons, List.mem_singleton, List.not_mem_nil, or_false] at hsk
      rcases hsk with h | h | h <;> subst h
      · exact ⟨1, hstyle, by decide, by decide⟩
      · rw [hdrag] at ht; simp [SVal.truthy] at ht
      · rw [hhov] at ht; simp [SVal.truthy] at ht)
    (by
      intro sk hsk sk' hsk' hne r hr
      simp only [List.mem_cons, List.mem_singleton, List.not_mem_nil, or_false] at hsk hsk'
      rcases hsk with h | h | h <;> subst h <;> rcases hsk' with h' | h' | h' <;> subst h' <;>
        simp_all)
  refine ⟨h0, ?_, ?_, ?_, ?_⟩
  · rw [h.1 "size" (by simp)]
    simp [sampleStore, Store.get, SVal.typeof]
  · rw [h.1 "deg" (by simp), defopts_get_deg]
    simp [sampleStore, Store.get, SVal.typeof, JSVal.prim]
  · rw [h.2 "style" (by simp) "stroke", hstyle]
    simp [sampleStore, Store.get, SVal.typeof]
  · rw [h.2 "style" (by simp) "fill", hstyle, defopts_get_style]
    simp [sampleStore, Store.get, SVal.typeof, JSVal.prim, ofList, get_set, isObj_set,
      isObj_empty, get_empty]

/-- Claim C6 fails when one object `{stroke: "red"}` is passed as both `style`
and `draggingstyle`: the user supplied no `fill`, the default `fill` of
`draggingstyle` is `rgba(0,0,255,0.7)`, but `apply(opts, defopts)` has already
written the `style` default `rgba(0,0,255,0.4)` into the shared object. -/
theorem apply_shared_style_object :
    (sharedStyleStore : Store ℚ).get (.ref 0) "style"
      = (sharedStyleStore : Store ℚ).get (.ref 0) "draggingstyle" ∧
    (sharedStyleStore : Store ℚ).get
      ((sharedStyleStore : Store ℚ).get (.ref 0) "draggingstyle") "fill" = .undefined ∧
    (((defopts : JSVal ℚ).get "draggingstyle").get "fill").prim = .str "rgba(0,0,255,0.7)" ∧
    (applyInPlace defopts (.ref 0) (sharedStyleStore : Store ℚ)).get
      ((applyInPlace defopts (.ref 0) (sharedStyleStore : Store ℚ)).get (.ref 0) "draggingstyle")
      "fill" = .str "rgba(0,0,255,0.4)" ∧
    (applyInPlace defopts (.ref 0) (sharedStyleStore : Store ℚ)).get
      ((applyInPlace defopts (.ref 0) (sharedStyleStore : Store ℚ)).get (.ref 0) "draggingstyle")
      "fill" ≠ (((defopts : JSVal ℚ).get "draggingstyle").get "fill").prim := by
  have hdef : (((defopts : JSVal ℚ).get "draggingstyle").get "fill").prim
      = .str "rgba(0,0,255,0.7)" := by
    rw [defopts_get_draggingstyle]
    simp [ofList, get_set, isObj_set, isObj_empty, get_empty, JSVal.prim]
  have hres : (applyInPlace defopts (.ref 0) (sharedStyleStore : Store ℚ)).get
      ((applyInPlace defopts (.ref 0) (sharedStyleStore : Store ℚ)).get (.ref 0)
        "draggingstyle") "fill" = .str "rgba(0,0,255,0.4)" := by
    simp [defopts, ofList, JSVal.set, JSVal.empty, applyInPlace, sharedStyleStore,
      Store.get, Store.set, Store.alloc, JSVal.typeof, SVal.typeof, SVal.truthy, JSVal.prim]
  refine ⟨?_, ?_, hdef, hres, ?_⟩
  · simp [sharedStyleStore, Store.get]
  · simp [sharedStyleStore, Store.get]
  · rw [hres, hdef]
    intro h
    injection h with h
    revert h
    decide

/-- Claim C7 fails on the empty options object: the size resolves to `64` and
the radius to the default `24`, which is not `0.5·64/φ`. -/
theorem resolveOpts_empty_radius :
    (resolveOpts (fun _ => none) (JSVal.empty : JSVal ℚ)).get "size" = num 64 ∧
    (resolveOpts (fun _ => none) (JSVal.empty : JSVal ℚ)).get "rad" = num 24 ∧
    (resolveOpts (fun _ => none) (JSVal.empty : JSVal ℚ)).get "rad" ≠
      ofNumber ((((resolveOpts (fun _ => none) (JSVal.empty : JSVal ℚ)).get "size").toNumber
        (fun _ => none)).map (fun size => 0.5 * size / golden)) := by
  have hd : deriveRadii (fun _ => none) (JSVal.empty : JSVal ℚ) = JSVal.empty :=
    deriveRadii_of_falsy _ _ rfl
  have hs : (resolveOpts (fun _ => none) (JSVal.empty : JSVal ℚ)).get "size" = num 64 := by
    rw [resolveOpts_get_scalar _ _ isObj_empty "size" (by simp), hd, get_empty,
      defopts_get_size]
    simp [JSVal.typeof]
  have hr : (resolveOpts (fun _ => none) (JSVal.empty : JSVal ℚ)).get "rad" = num 24 := by
    rw [resolveOpts_get_scalar _ _ isObj_empty "rad" (by simp), hd, get_empty,
      defopts_get_rad]
    simp [JSVal.typeof]
  refine ⟨hs, hr, ?_⟩
  rw [hs, hr]
  simp only [JSVal.toNumber, Option.map, ofNumber, golden]
  intro h
  injection h with h
  norm_num at h

/-- Claim C7, amended: for an options object with a truthy `size`, each radius
the user left undefined is `rad = 0.5·size/φ`, `bgrad = rad/φ` with the
resolved `rad`, `axisrad = 0.5·size`; for an options object whose `size` is
undefined or falsy, each radius the user left undefined is its fixed default
`24`, `24/φ`, `32`, and an undefined `size` resolves to `64`. -/
theorem resolveOpts_radii_by_size [LinearOrderedField α] (s : String → Option α)
    (o : JSVal α) (ho : o.isObj = true) :
    ((o.get "size").truthy = true →
      (resolveOpts s o).get "size" = o.get "size" ∧
      (resolveOpts s o).get "rad" =
        (if (o.get "rad").typeof = "undefined" then
          ofNumber ((((resolveOpts s o).get "size").toNumber s).map
            (fun size => 0.5 * size / golden))
        else o.get "rad") ∧
      (resolveOpts s o).get "bgrad" =
        (if (o.get "bgrad").typeof = "undefined" then
          ofNumber ((((resolveOpts s o).get "rad").toNumber s).map (fun rad => rad / golden))
        else o.get "bgrad") ∧
      (resolveOpts s o).get "axisrad" =
        (if (o.get "axisrad").typeof = "undefined" then
          ofNumber ((((resolveOpts s o).get "size").toNumber s).map (fun size => 0.5 * size))
        else o.get "axisrad")) ∧
    ((o.get "size").truthy = false →
      (resolveOpts s o).get "size" =
        (if (o.get "size").typeof = "undefined" then num 64 else o.get "size") ∧
      (resolveOpts s o).get "rad" =
        (if (o.get "rad").typeof = "undefined" then num 24 else o.get "rad") ∧
      (resolveOpts s o).get "bgrad" =
        (if (o.get "bgrad").typeof = "undefined" then num (24 / golden) else o.get "bgrad") ∧
      (resolveOpts s o).get "axisrad" =
        (if (o.get "axisrad").typeof = "undefined" then num 32 else o.get "axisrad")) := by
  constructor
  · intro ht
    have hsize : (resolveOpts s o).get "size" = o.get "size" := by
      rw [resolveOpts_get_scalar s o ho "size" (by simp), deriveRadii_get_size s o ho,
        if_neg (typeof_ne_undefined_of_truthy ht)]
    have hrad : (resolveOpts s o).get "rad" = (deriveRadii s o).get "rad" := by
      rw [resolveOpts_get_scalar s o ho "rad" (by simp), deriveRadii_get_rad s o ho ht]
      by_cases hu : (o.get "rad").typeof = "undefined"
      · simp [hu, typeof_ofNumber]
      · simp [hu]
    have hbg : (resolveOpts s o).get "bgrad" = (deriveRadii s o).get "bgrad" := by
      rw [resolveOpts_get_scalar s o ho "bgrad" (by simp), deriveRadii_get_bgrad s o ho ht]
      by_cases hu : (o.get "bgrad").typeof = "undefined"
      · simp [hu, typeof_ofNumber]
      · simp [hu]
    have hax : (resolveOpts s o).get "axisrad" = (deriveRadii s o).get "axisrad" := by
      rw [resolveOpts_get_scalar s o ho "axisrad" (by simp), deriveRadii_get_axisrad s o ho ht]
      by_cases hu : (o.get "axisrad").typeof = "undefined"
      · simp [hu, typeof_ofNumber]
      · simp [hu]
    refine ⟨hsize, ?_, ?_, ?_⟩
    · rw [hrad, hsize, deriveRadii_get_rad s o ho ht]
    · rw [hbg, hrad, deriveRadii_get_bgrad s o ho ht]
    · rw [hax, hsize, deriveRadii_get_axisrad s o ho ht]
  · intro hf
    have hd : deriveRadii s o = o := deriveRadii_of_falsy s o hf
    refine ⟨?_, ?_, ?_, ?_⟩
    · rw [resolveOpts_get_scalar s o ho "size" (by simp), hd, defopts_get_size]
    · rw [resolveOpts_get_scalar s o ho "rad" (by simp), hd, defopts_get_rad]
    · rw [resolveOpts_get_scalar s o ho "bgrad" (by simp), hd, defopts_get_bgrad]
    · rw [resolveOpts_get_scalar s o ho "axisrad" (by simp), hd, defopts_get_axisrad]

/-- An instance of `resolveOpts_radii_by_size`: the options
`{size: 100, style: {stroke: "red"}}` resolve to the radii `50/φ`, `50/φ²`
and `50`. -/
theorem resolveOpts_radii_by_size_witness :
    (sampleOpts : JSVal ℚ).isObj = true ∧
    ((sampleOpts : JSVal ℚ).get "size").truthy = true ∧
    (resolveOpts (fun _ => none) (sampleOpts : JSVal ℚ)).get "rad"
      = num (0.5 * 100 / golden) ∧
    (resolveOpts (fun _ => none) (sampleOpts : JSVal ℚ)).get "bgrad"
      = num (0.5 * 100 / golden / golden) ∧
    (resolveOpts (fun _ => none) (sampleOpts : JSVal ℚ)).get "axisrad"
      = num (0.5 * 100) := by
  have ht : ((sampleOpts : JSVal ℚ).get "size").truthy = true := by
    simp [sampleOpts, get_obj, JSVal.truthy]
  have h := (resolveOpts_radii_by_size (fun _ => none) (sampleOpts : JSVal ℚ) rfl).1 ht
  obtain ⟨h1, h2, h3, h4⟩ := h
  have hsz : (sampleOpts : JSVal ℚ).get "size" = num 100 := by simp [sampleOpts, get_obj]
  have hrad : (resolveOpts (fun _ => none) (sampleOpts : JSVal ℚ)).get "rad"
      = num (0.5 * 100 / golden) := by
    rw [h2, h1, hsz]
    simp [sampleOpts, get_obj, JSVal.typeof, JSVal.toNumber, ofNumber]
  refine ⟨rfl, ht, hrad, ?_, ?_⟩
  · rw [h3, hrad]
    simp [sampleOpts, get_obj, JSVal.typeof, JSVal.toNumber, ofNumber]
  · rw [h4, h1, hsz]
    simp [sampleOpts, get_obj, JSVal.typeof, JSVal.toNumber, ofNumber]

/-- Claim C8: press at one offset, move to a second, release. With `(dx, dy)`
the offset that `position` reads from the second event, `ret` the angle of
that offset (lines 220-224), `a` its normalisation (lines 174-175) and `d` the
sweep end of `a` (lines 127-133): `dragging` ends false, the stored angle is
`a`, and the canvas holds exactly the drawing calls of lines 138-169 for `d`
in the style of a widget that is not dragged; `touchstart`, `touchmove`,
`touchend` end in the same state. -/
theorem drag_lifecycle (w : Widget ℝ) (e1 e2 : Event ℝ) :
    let xy : ℝ × ℝ :=
      match e2.touches with
      | some t => t
      | none =>
        match e2.x, e2.y with
        | some x, some y => (x, y)
        | _, _ => (e2.clientX + e2.bodyScrollLeft + e2.documentElementScrollLeft,
                   e2.clientY + e2.bodyScrollTop + e2.documentElementScrollTop)
    let dx := xy.1 - e2.canvasOffsetLeft - w.opts.x
    let dy := xy.2 - e2.canvasOffsetTop - w.opts.y
    let r := if parseInt (dy + 0.5) = 0 then w.opts.angle0 + (if dx < 0 then Real.pi else 0)
             else w.opts.angle0 - Complex.arg ⟨dx, dy⟩
    let ret := if w.opts.clockwise then 2 * Real.pi - r else r
    let ang := if ret < 0 then Real.pi * 2 + ret else ret
    let a := ang - Real.pi * 2 * parseInt (0.5 * ang / Real.pi)
    let d0 := if w.opts.clockwise then 2 * Real.pi - (w.opts.angle0 - a) else w.opts.angle0 - a
    let d := d0 - Real.pi * 2 * parseInt (0.5 * d0 / Real.pi)
    let over := if w.hovered then w.opts.hoveredstyle else JSVal.empty
    let s := apply JSVal.empty [w.opts.style, if over.truthy then over else JSVal.empty]
    let w3 := mouseup realMath (mousemove realMath (mousedown realMath w e1) e2)
    touchend realMath (touchmove realMath (touchstart realMath w e1) e2) = w3 ∧
    w3.dragging = false ∧
    w3.angle = a ∧
    w3.canvas = [
      .clearRect 0 0 w.opts.size w.opts.size,
      .save,
      .beginPath,
      .arc w.opts.x w.opts.y w.opts.bgrad 0 (Real.pi * 2) false,
      .fillStyle (s.get "bgfill"),
      .lineWidth (s.get "bglinewidth"),
      .strokeStyle (s.get "bgstroke"),
      .fill,
      .stroke,
      .beginPath,
      .moveTo w.opts.x w.opts.y,
      .arc w.opts.x w.opts.y w.opts.rad w.opts.angle0 d (!w.opts.clockwise),
      .closePath,
      .fillStyle (s.get "fill"),
      .lineWidth (s.get "linewidth"),
      .strokeStyle (s.get "stroke"),
      .fill,
      .stroke,
      .beginPath,
      .moveTo (w.opts.x + w.opts.axisrad * Real.cos w.opts.angle0)
        (w.opts.y + w.opts.axisrad * Real.sin w.opts.angle0),
      .lineTo w.opts.x w.opts.y,
      .lineTo (w.opts.x + w.opts.axisrad * Real.cos d) (w.opts.y + w.opts.axisrad * Real.sin d),
      .strokeStyle (s.get "axisstroke"),
      .lineWidth (s.get "axislinewidth"),
      .stroke,
      .restore] := by
  intro xy dx dy r ret ang a d0 d over s w3
  have hpos : position w.opts e2 = (dx, dy) := by
    simp only [position, dx, dy, xy]
    cases e2.touches with
    | some t => rfl
    | none =>
      cases e2.x with
      | none => rfl
      | some x =>
        cases e2.y with
        | none => rfl
        | some y => rfl
  have hret : angleFromPos realMath w.opts (position w.opts e2) = ret := by
    rw [hpos]; rfl
  have ha : storedAngle realMath ret = a := rfl
  obtain ⟨h1, h2, h3⟩ := press_move_release realMath w e1 e2
  rw [setValue_angle, hret, ha] at h2 h3
  refine ⟨rfl, h1, h2, ?_⟩
  rw [h3]
  rfl

/-- Claim C9, at `angle0 = π/2`, `clockwise` on and a press at the offset
`(0, 10)`: the pointer direction is `atan2(10, 0) = π/2`, the sweep that
`paint` then draws ends at `d = 3π/2`, and the two differ by `π`, which is no
multiple of `2π`. -/
theorem press_clockwise_endpoint :
    parseInt ((10 : ℝ) + 0.5) ≠ 0 ∧
    paint_d realMath (mousedown realMath
      { (defaultWidget : Widget ℝ) with
        opts := { (defaultOpts : Opts ℝ) with angle0 := Real.pi / 2 } }
      (eventAt { (defaultOpts : Opts ℝ) with angle0 := Real.pi / 2 } (0, 10)))
        = 3 * Real.pi / 2 ∧
    realMath.atan2 10 0 = Real.pi / 2 ∧
    ¬ ∃ k : ℤ, 3 * Real.pi / 2 - Real.pi / 2 = 2 * Real.pi * k := by
  have hpi := Real.pi_pos
  have hp : parseInt ((10 : ℝ) + 0.5) = 10 := by
    rw [parseInt_of_nonneg (by norm_num)]
    have : ⌊((10 : ℝ) + 0.5)⌋ = 10 := by rw [Int.floor_eq_iff]; norm_num
    rw [this]; norm_num
  have harg : Complex.arg ⟨0, 10⟩ = Real.pi / 2 := by
    rw [Complex.arg_eq_pi_div_two_iff]; norm_num
  refine ⟨by rw [hp]; norm_num, ?_, harg, ?_⟩
  · have ha : angleFromPos realMath { (defaultOpts : Opts ℝ) with angle0 := Real.pi / 2 }
        (0, 10) = 2 * Real.pi := by
      unfold angleFromPos
      simp only [hp, realMath, defaultOpts, harg]
      norm_num
    have hs : storedAngle realMath (2 * Real.pi) = 0 := by
      unfold storedAngle
      simp only [realMath]
      have h : ¬ (2 * Real.pi < 0) := by linarith
      simp only [h, if_false]
      have e : (0.5 * (2 * Real.pi) / Real.pi) = 1 := by field_simp; ring
      rw [e, parseInt_of_nonneg (by norm_num)]
      simp; ring
    unfold paint_d
    rw [mousedown_angle, mousedown_opts]
    simp only [position_eventAt, ha, hs]
    simp only [defaultOpts, realMath, if_true, sub_zero]
    have e : (0.5 * (2 * Real.pi - Real.pi / 2) / Real.pi) = 3 / 4 := by field_simp; ring
    rw [e, parseInt_of_nonneg (by norm_num)]
    have : ⌊(3 / 4 : ℝ)⌋ = 0 := by rw [Int.floor_eq_iff]; norm_num
    rw [this]; push_cast; ring
  · rintro ⟨k, hk⟩
    have h2 : (2 * (k : ℝ) - 1) * Real.pi = 0 := by linarith
    have h3 : (2 * (k : ℝ) - 1) = 0 := by
      rcases mul_eq_zero.mp h2 with h | h
      · exact h
      · exact absurd h (ne_of_gt hpi)
    have h4 : (2 * k - 1 : ℤ) = 0 := by exact_mod_cast h3
    omega

/-- Claim C10: `angleFromPos` equals the two-case function that ignores the
horizontal rounding test, for every `Math` object, configuration and offset. -/
theorem angleFromPos_refines_twoCase [LinearOrderedField α] [FloorRing α]
    (Math : MathObj α) (opts : Opts α) (pos : α × α) :
    angleFromPos Math opts pos = angleFromPos_twoCase Math opts pos := by
  unfold angleFromPos angleFromPos_twoCase
  rfl

end AngleInput
